import Mathlib

/-!
# Verification of the x2node-records schema-compilation engine

A shallow embedding, in Lean 4, of the core algorithms of the
`x2node-records` record types library:

* the value-type grammar parser (`VALUE_TYPE_RE` of
  `lib/properties-container.js`, second revision, also found in the core
  extension revision of the same era);
* the record reference parser `RecordTypeDescriptor.refToId`;
* the library-completion fixpoint loop
  (`LibraryConstructionContext.completeLibrary` of
  `lib/record-types-library-factory.js`);
* the JSON-pointer engine (`PropertyPointer` of the pointers module);
* the library construction pipeline (`buildLibrary` with the core
  extension): containers, property descriptors, view properties,
  reference-target resolution, id validation and the
  `addRecordType` phase guard.

JavaScript strings are modelled as `List Char` (a JS string is a sequence
of code units); JSON record instances as the inductive `JSVal`.
-/

namespace X2

/-- JavaScript string model: a sequence of characters. -/
abbrev JStr := List Char

/-- Characters matched by the JS regex whitespace class `\s` (restricted to
the ASCII range, the only characters this code base feeds to it); a
character is matched by `\S` exactly when this is `false`. -/
def isJsSpace (c : Char) : Bool :=
  c = ' ' || c = '\t' || c = '\n' || c = '\r' || c = '\x0b' || c = '\x0c'

/-- Strip the prefix `p` from `s`: `some r` iff `s = p ++ r`. -/
def cutPre : JStr → JStr → Option JStr
  | [], s => some s
  | _ :: _, [] => none
  | p :: ps, c :: cs => if c = p then cutPre ps cs else none

theorem cutPre_append (p r : JStr) : cutPre p (p ++ r) = some r := by
  induction p with
  | nil => rfl
  | cons c cs ih => simp [cutPre, ih]

theorem cutPre_eq_some {p s r : JStr} (h : cutPre p s = some r) : s = p ++ r := by
  induction p generalizing s with
  | nil =>
    simp only [cutPre, Option.some.injEq] at h
    simp [h]
  | cons c cs ih =>
    cases s with
    | nil => simp [cutPre] at h
    | cons d ds =>
      by_cases hdc : d = c
      · subst hdc
        simp only [cutPre, if_pos rfl] at h
        simpa using ih h
      · simp [cutPre, hdc] at h

/-- Strip the suffix `suf` from `s`: `some b` iff `s = b ++ suf`. -/
def cutSuf (suf s : JStr) : Option JStr :=
  (cutPre suf.reverse s.reverse).map List.reverse

theorem cutSuf_append (suf b : JStr) : cutSuf suf (b ++ suf) = some b := by
  simp [cutSuf, List.reverse_append, cutPre_append]

theorem cutSuf_eq_some {suf s b : JStr} (h : cutSuf suf s = some b) :
    s = b ++ suf := by
  simp only [cutSuf, Option.map_eq_some'] at h
  obtain ⟨r, hr, hb⟩ := h
  have := cutPre_eq_some hr
  subst hb
  have : s.reverse.reverse = (suf.reverse ++ r).reverse := by rw [this]
  simpa [List.reverse_append] using this

/-- `s.endsWith(suf)` of JavaScript. -/
def jsEndsWith (suf s : JStr) : Bool := (cutSuf suf s).isSome

theorem jsEndsWith_append (suf b : JStr) : jsEndsWith suf (b ++ suf) = true := by
  simp [jsEndsWith, cutSuf_append]

/-- The scalar value types of the grammar; `ref` is a reference. -/
inductive ScalarType where
  | string | number | boolean | datetime | object | ref
  deriving DecidableEq, Repr

/-- The keyword alternative of `VALUE_TYPE_RE`: capture group 1,
`(string|number|boolean|datetime|object)`. -/
def keywordOf (b : JStr) : Option ScalarType :=
  if b = "string".data then some .string
  else if b = "number".data then some .number
  else if b = "boolean".data then some .boolean
  else if b = "datetime".data then some .datetime
  else if b = "object".data then some .object
  else none

/-- The reference alternative of `VALUE_TYPE_RE`: `(ref)\((\S+)\)`.
Returns the capture group 3 (the raw target list). The base must be
`"ref(" ++ t ++ ")"` with `t` non-empty and free of whitespace. -/
def refBase (b : JStr) : Option JStr :=
  match cutPre "ref(".data b with
  | none => none
  | some r =>
    match r.getLast?, cutSuf [')'] r with
    | some c, some t =>
      if c = ')' && !t.isEmpty && t.all (fun ch => !isJsSpace ch) then some t
      else none
    | _, _ => none

/-- Match a string against the suffix-free part of `VALUE_TYPE_RE`,
`(?:(string|number|boolean|datetime|object)|(ref)\((\S+)\))`. Returns the
scalar type together with the raw reference target capture. -/
def matchBase (b : JStr) : Option (ScalarType × Option JStr) :=
  match keywordOf b with
  | some t => some (t, none)
  | none => (refBase b).map (fun t => (ScalarType.ref, some t))

/-- `VALUE_TYPE_RE.exec`: the whole string is a base followed by an optional
`[]` or `{}` suffix.  The three suffix decompositions are mutually
exclusive (a valid base ends in a keyword letter or in `)`, never in `]`
or `}`), so trying them in any fixed order computes the unique match. -/
def execValueTypeRE (s : JStr) : Option (ScalarType × Option JStr) :=
  match matchBase s with
  | some r => some r
  | none =>
    match cutSuf "[]".data s with
    | some b => matchBase b
    | none =>
      match cutSuf "{}".data s with
      | some b => matchBase b
      | none => none

/-- Result of parsing a `valueType` attribute, as computed by the
`PropertyDescriptor` constructor: the regex match plus the cardinality
flags derived from `endsWith('[]')` / `endsWith('{}')`. -/
structure ParsedType where
  svt : ScalarType
  target : Option JStr
  isArray : Bool
  isMap : Bool
  isScalar : Bool
  deriving DecidableEq, Repr

/-- The value-type parsing performed by the `PropertyDescriptor`
constructor (`lib/properties-container.js`, lines 1008–1022 of the
second revision): run `VALUE_TYPE_RE`, take the first non-empty capture
group as the scalar value type, the group 3 as the reference target, and
classify cardinality with `endsWith`. -/
def parseValueType (s : JStr) : Option ParsedType :=
  (execValueTypeRE s).map (fun r =>
    { svt := r.1, target := r.2,
      isArray := jsEndsWith "[]".data s,
      isMap := jsEndsWith "{}".data s,
      isScalar := !jsEndsWith "[]".data s && !jsEndsWith "{}".data s })

/-- JavaScript `s.split(sep)` for a one-character separator: always returns
a non-empty list of (possibly empty) pieces. -/
def splitOnChar (c : Char) : JStr → List JStr
  | [] => [[]]
  | x :: xs =>
    if x = c then [] :: splitOnChar c xs
    else
      match splitOnChar c xs with
      | [] => [[x]]
      | h :: t => (x :: h) :: t

/-- `pieces.join(sep)` for a one-character separator. -/
def joinChar (c : Char) : List JStr → JStr
  | [] => []
  | [t] => t
  | t :: ts => t ++ c :: joinChar c ts

theorem splitOnChar_no_sep {c : Char} {t : JStr} (h : c ∉ t) :
    splitOnChar c t = [t] := by
  induction t with
  | nil => rfl
  | cons x xs ih =>
    have hx : x ≠ c := fun hxc => h (hxc ▸ List.mem_cons_self x xs)
    have hxs : c ∉ xs := fun hm => h (List.mem_cons_of_mem x hm)
    simp [splitOnChar, hx, ih hxs]

theorem splitOnChar_append_sep {c : Char} {t r : JStr} (h : c ∉ t) :
    splitOnChar c (t ++ c :: r) = t :: splitOnChar c r := by
  induction t with
  | nil => simp [splitOnChar]
  | cons x xs ih =>
    have hx : x ≠ c := fun hxc => h (hxc ▸ List.mem_cons_self x xs)
    have hxs : c ∉ xs := fun hm => h (List.mem_cons_of_mem x hm)
    have hstep := ih hxs
    simp only [List.cons_append, splitOnChar, if_neg hx]
    rw [show xs.append (c :: r) = xs ++ c :: r from rfl, hstep]

theorem splitOnChar_joinChar {c : Char} {ts : List JStr} (hne : ts ≠ [])
    (h : ∀ t ∈ ts, c ∉ t) : splitOnChar c (joinChar c ts) = ts := by
  induction ts with
  | nil => exact absurd rfl hne
  | cons t rest ih =>
    cases rest with
    | nil =>
      exact splitOnChar_no_sep (h t (List.mem_cons_self t []))
    | cons u us =>
      have ht : c ∉ t := h t (List.mem_cons_self t _)
      have hrest : ∀ v ∈ u :: us, c ∉ v := fun v hv =>
        h v (List.mem_cons_of_mem t hv)
      have hj : joinChar c (t :: u :: us) = t ++ c :: joinChar c (u :: us) := rfl
      rw [hj, splitOnChar_append_sep ht, ih (by simp) hrest]

/-- Property cardinality, as exposed by `isScalar()`, `isArray()`,
`isMap()` on a property descriptor. -/
inductive Cardinality where
  | scalar | array | map
  deriving DecidableEq, Repr

/-- A structured value type: scalar type, reference target list (non-empty
exactly for references), and cardinality. -/
structure TypeTuple where
  svt : ScalarType
  targets : List JStr
  card : Cardinality
  deriving DecidableEq, Repr

/-- An identifier of the type grammar's `TargetList`: non-empty, free of
whitespace and of the `|` separator. -/
def IsIdent (t : JStr) : Prop :=
  t ≠ [] ∧ ∀ ch ∈ t, ¬ isJsSpace ch ∧ ch ≠ '|'

instance (t : JStr) : Decidable (IsIdent t) := by
  unfold IsIdent; infer_instance

/-- A tuple the grammar can express: a non-reference type has no targets,
a reference has a non-empty list of identifiers. -/
def ValidTuple (tt : TypeTuple) : Prop :=
  if tt.svt = ScalarType.ref then
    tt.targets ≠ [] ∧ ∀ t ∈ tt.targets, IsIdent t
  else tt.targets = []

instance (tt : TypeTuple) : Decidable (ValidTuple tt) := by
  unfold ValidTuple; infer_instance

/-- Render a scalar type (with its targets) as the grammar's `ScalarType`
production. -/
def renderScalar (svt : ScalarType) (targets : List JStr) : JStr :=
  match svt with
  | .string => "string".data
  | .number => "number".data
  | .boolean => "boolean".data
  | .datetime => "datetime".data
  | .object => "object".data
  | .ref => "ref(".data ++ joinChar '|' targets ++ [')']

/-- Render a cardinality as the optional `[]` / `{}` suffix. -/
def renderSuffix : Cardinality → JStr
  | .scalar => []
  | .array => "[]".data
  | .map => "{}".data

/-- Render a tuple as a type-specifier string of the grammar
(`Type ::= ScalarType ("[]" | "{}")?`). -/
def renderTuple (tt : TypeTuple) : JStr :=
  renderScalar tt.svt tt.targets ++ renderSuffix tt.card

/-- Parse a type-specifier string into a structured tuple, composing the
`PropertyDescriptor` constructor's regex parse with the reference-target
splitting of the core extension (`refTargets = _refTarget.split('|')`). -/
def parseTuple (s : JStr) : Option TypeTuple :=
  (parseValueType s).map (fun p =>
    { svt := p.svt,
      targets :=
        match p.target with
        | some t => splitOnChar '|' t
        | none => [],
      card :=
        if p.isArray then Cardinality.array
        else if p.isMap then Cardinality.map
        else Cardinality.scalar })

theorem cutSuf_last_ne {a b c : Char} (x : JStr) (h : c ≠ b) :
    cutSuf [a, b] (x ++ [c]) = none := by
  simp [cutSuf, List.reverse_cons, cutPre, h]

theorem jsEndsWith_last_ne {a b c : Char} (x : JStr) (h : c ≠ b) :
    jsEndsWith [a, b] (x ++ [c]) = false := by
  simp [jsEndsWith, cutSuf_last_ne x h]

theorem keywordOf_r (rest : JStr) : keywordOf ('r' :: rest) = none := by
  simp only [keywordOf,
    show "string".data = 's' :: "tring".data from rfl,
    show "number".data = 'n' :: "umber".data from rfl,
    show "boolean".data = 'b' :: "oolean".data from rfl,
    show "datetime".data = 'd' :: "atetime".data from rfl,
    show "object".data = 'o' :: "bject".data from rfl,
    List.cons.injEq]
  simp

theorem refBase_refForm (T : JStr) (hne : T ≠ [])
    (hns : T.all (fun ch => !isJsSpace ch) = true) :
    refBase ("ref(".data ++ (T ++ [')'])) = some T := by
  have hie : T.isEmpty = false := by
    cases T with
    | nil => exact absurd rfl hne
    | cons c cs => rfl
  unfold refBase
  simp only [cutPre_append, List.getLast?_concat, cutSuf_append]
  simp [hie, hns]

theorem refBase_bad_last (x : JStr) (b : Char) (hb : b ≠ ')') :
    refBase ("ref(".data ++ (x ++ [b])) = none := by
  unfold refBase
  simp only [cutPre_append, List.getLast?_concat]
  rcases h : cutSuf [')'] (x ++ [b]) with _ | t
  · rfl
  · simp [hb]

theorem matchBase_refForm (T : JStr) (hne : T ≠ [])
    (hns : T.all (fun ch => !isJsSpace ch) = true) :
    matchBase ("ref(".data ++ (T ++ [')'])) = some (ScalarType.ref, some T) := by
  unfold matchBase
  rw [show ("ref(".data ++ (T ++ [')'])) = 'r' :: ("ef(".data ++ (T ++ [')']))
      from rfl, keywordOf_r,
    show ('r' :: ("ef(".data ++ (T ++ [')']))) = "ref(".data ++ (T ++ [')'])
      from rfl, refBase_refForm T hne hns]
  rfl

theorem matchBase_ref_bad_last (x : JStr) (b : Char) (hb : b ≠ ')') :
    matchBase ("ref(".data ++ (x ++ [b])) = none := by
  unfold matchBase
  rw [show ("ref(".data ++ (x ++ [b])) = 'r' :: ("ef(".data ++ (x ++ [b]))
      from rfl, keywordOf_r,
    show ('r' :: ("ef(".data ++ (x ++ [b]))) = "ref(".data ++ (x ++ [b])
      from rfl, refBase_bad_last x b hb]
  rfl

theorem joinChar_ne_nil {c : Char} {ts : List JStr} (hne : ts ≠ [])
    (h : ∀ t ∈ ts, t ≠ []) : joinChar c ts ≠ [] := by
  cases ts with
  | nil => exact absurd rfl hne
  | cons t rest =>
    cases rest with
    | nil => exact h t (List.mem_cons_self t [])
    | cons u us =>
      have ht := h t (List.mem_cons_self t _)
      simp only [joinChar, ne_eq, List.append_eq_nil]
      intro hcontra
      exact ht hcontra.1

theorem joinChar_all {p : Char → Bool} {c : Char} {ts : List JStr}
    (hc : p c = true) (h : ∀ t ∈ ts, t.all p = true) :
    (joinChar c ts).all p = true := by
  induction ts with
  | nil => rfl
  | cons t rest ih =>
    cases rest with
    | nil => exact h t (List.mem_cons_self t [])
    | cons u us =>
      have ht := h t (List.mem_cons_self t _)
      have hrest := ih (fun v hv => h v (List.mem_cons_of_mem t hv))
      simp only [joinChar] at hrest ⊢
      simp [List.all_append, ht, hc, hrest]

/-- C3 (round trip, reference case including both the non-polymorphic and
the polymorphic target lists, under every cardinality). -/
theorem parseTuple_renderTuple_ref (targets : List JStr) (card : Cardinality)
    (hne : targets ≠ []) (hid : ∀ t ∈ targets, IsIdent t) :
    parseTuple (renderTuple ⟨ScalarType.ref, targets, card⟩) =
      some ⟨ScalarType.ref, targets, card⟩ := by
  set J := joinChar '|' targets with hJ
  have hJne : J ≠ [] := joinChar_ne_nil hne (fun t ht => (hid t ht).1)
  have hJns : J.all (fun ch => !isJsSpace ch) = true := by
    refine joinChar_all (by decide) (fun t ht => ?_)
    have := (hid t ht).2
    exact List.all_eq_true.2 (fun ch hch => by simp [(this ch hch).1])
  have hsplit : splitOnChar '|' J = targets :=
    splitOnChar_joinChar hne
      (fun t ht hch => (((hid t ht).2 '|' hch).2) rfl)
  have hrender : renderScalar ScalarType.ref targets = "ref(".data ++ (J ++ [')']) := by
    simp [renderScalar, hJ]
  cases card with
  | scalar =>
    have hs : renderTuple ⟨ScalarType.ref, targets, Cardinality.scalar⟩ =
        "ref(".data ++ (J ++ [')']) := by
      simp [renderTuple, renderSuffix, hrender]
    have hexec : execValueTypeRE ("ref(".data ++ (J ++ [')'])) =
        some (ScalarType.ref, some J) := by
      unfold execValueTypeRE
      simp only [matchBase_refForm J hJne hJns]
    have hew1 : jsEndsWith "[]".data ("ref(".data ++ (J ++ [')'])) = false := by
      rw [show ("ref(".data ++ (J ++ [')'])) = ("ref(".data ++ J) ++ [')'] by simp]
      exact jsEndsWith_last_ne _ (by decide)
    have hew2 : jsEndsWith "{}".data ("ref(".data ++ (J ++ [')'])) = false := by
      rw [show ("ref(".data ++ (J ++ [')'])) = ("ref(".data ++ J) ++ [')'] by simp]
      exact jsEndsWith_last_ne _ (by decide)
    rw [hs]
    unfold parseTuple parseValueType
    rw [hexec]
    simp only [Option.map_some', hew1, hew2, hsplit]
    rfl
  | array =>
    have hs : renderTuple ⟨ScalarType.ref, targets, Cardinality.array⟩ =
        ("ref(".data ++ (J ++ [')'])) ++ "[]".data := by
      simp [renderTuple, renderSuffix, hrender]
    have hshape : ("ref(".data ++ (J ++ [')'])) ++ "[]".data =
        "ref(".data ++ ((J ++ [')', '[']) ++ [']']) := by simp
    have hmb : matchBase (("ref(".data ++ (J ++ [')'])) ++ "[]".data) = none := by
      rw [hshape]; exact matchBase_ref_bad_last _ _ (by decide)
    have hcut : cutSuf "[]".data (("ref(".data ++ (J ++ [')'])) ++ "[]".data) =
        some ("ref(".data ++ (J ++ [')'])) := cutSuf_append _ _
    have hexec : execValueTypeRE (("ref(".data ++ (J ++ [')'])) ++ "[]".data) =
        some (ScalarType.ref, some J) := by
      unfold execValueTypeRE
      simp only [hmb, hcut, matchBase_refForm J hJne hJns]
    have hew1 : jsEndsWith "[]".data (("ref(".data ++ (J ++ [')'])) ++ "[]".data)
        = true := jsEndsWith_append _ _
    have hew2 : jsEndsWith "{}".data (("ref(".data ++ (J ++ [')'])) ++ "[]".data)
        = false := by
      rw [show (("ref(".data ++ (J ++ [')'])) ++ "[]".data) =
          (("ref(".data ++ (J ++ [')'])) ++ ['[']) ++ [']'] by simp]
      exact jsEndsWith_last_ne _ (by decide)
    rw [hs]
    unfold parseTuple parseValueType
    rw [hexec]
    simp only [Option.map_some', hew1, hew2, hsplit]
    rfl
  | map =>
    have hs : renderTuple ⟨ScalarType.ref, targets, Cardinality.map⟩ =
        ("ref(".data ++ (J ++ [')'])) ++ "{}".data := by
      simp [renderTuple, renderSuffix, hrender]
    have hshape : ("ref(".data ++ (J ++ [')'])) ++ "{}".data =
        "ref(".data ++ ((J ++ [')', '{']) ++ ['}']) := by simp
    have hmb : matchBase (("ref(".data ++ (J ++ [')'])) ++ "{}".data) = none := by
      rw [hshape]; exact matchBase_ref_bad_last _ _ (by decide)
    have hcutA : cutSuf "[]".data (("ref(".data ++ (J ++ [')'])) ++ "{}".data) =
        none := by
      rw [show (("ref(".data ++ (J ++ [')'])) ++ "{}".data) =
          (("ref(".data ++ (J ++ [')'])) ++ ['{']) ++ ['}'] by simp]
      exact cutSuf_last_ne _ (by decide)
    have hcutM : cutSuf "{}".data (("ref(".data ++ (J ++ [')'])) ++ "{}".data) =
        some ("ref(".data ++ (J ++ [')'])) := cutSuf_append _ _
    have hexec : execValueTypeRE (("ref(".data ++ (J ++ [')'])) ++ "{}".data) =
        some (ScalarType.ref, some J) := by
      unfold execValueTypeRE
      simp only [hmb, hcutA, hcutM, matchBase_refForm J hJne hJns]
    have hew1 : jsEndsWith "[]".data (("ref(".data ++ (J ++ [')'])) ++ "{}".data)
        = false := by
      rw [show (("ref(".data ++ (J ++ [')'])) ++ "{}".data) =
          (("ref(".data ++ (J ++ [')'])) ++ ['{']) ++ ['}'] by simp]
      exact jsEndsWith_last_ne _ (by decide)
    have hew2 : jsEndsWith "{}".data (("ref(".data ++ (J ++ [')'])) ++ "{}".data)
        = true := jsEndsWith_append _ _
    rw [hs]
    unfold parseTuple parseValueType
    rw [hexec]
    simp only [Option.map_some', hew1, hew2, hsplit]
    rfl

/-- C3: for every tuple of scalar type (`string`, `number`, `boolean`,
`datetime`, `object`, or `ref` with a target list of identifiers),
cardinality (scalar / array / map) and reference targets, rendering the
tuple as a type-specifier string of the grammar and parsing it back with
`VALUE_TYPE_RE` plus the `endsWith` cardinality classification and the
`split('|')` target recovery yields exactly the same tuple; in particular
the parser classifies the string as scalar iff it has no suffix, array iff
it ends in `[]`, and map iff it ends in `{}`. -/
theorem valueType_specifier_round_trip (tt : TypeTuple) (hv : ValidTuple tt) :
    parseTuple (renderTuple tt) = some tt := by
  obtain ⟨svt, targets, card⟩ := tt
  cases svt with
  | ref =>
    simp only [ValidTuple, if_pos rfl] at hv
    exact parseTuple_renderTuple_ref targets card hv.1 hv.2
  | string =>
    simp only [ValidTuple, if_neg (by decide : ScalarType.string ≠ ScalarType.ref)] at hv
    subst hv
    cases card <;> decide
  | number =>
    simp only [ValidTuple, if_neg (by decide : ScalarType.number ≠ ScalarType.ref)] at hv
    subst hv
    cases card <;> decide
  | boolean =>
    simp only [ValidTuple, if_neg (by decide : ScalarType.boolean ≠ ScalarType.ref)] at hv
    subst hv
    cases card <;> decide
  | datetime =>
    simp only [ValidTuple, if_neg (by decide : ScalarType.datetime ≠ ScalarType.ref)] at hv
    subst hv
    cases card <;> decide
  | object =>
    simp only [ValidTuple, if_neg (by decide : ScalarType.object ≠ ScalarType.ref)] at hv
    subst hv
    cases card <;> decide

/-- Witness for C3 at a concrete polymorphic reference map type. -/
theorem valueType_specifier_round_trip_witness :
    ValidTuple ⟨ScalarType.ref, ["Account".data, "Order".data], Cardinality.map⟩ ∧
    parseTuple (renderTuple
        ⟨ScalarType.ref, ["Account".data, "Order".data], Cardinality.map⟩) =
      some ⟨ScalarType.ref, ["Account".data, "Order".data], Cardinality.map⟩ :=
  ⟨by decide, valueType_specifier_round_trip _ (by decide)⟩

/-! ## JSON record instances

Record instances are plain JSON values.  `undefined` is modelled as the
absence of a key (lookups return `Option JSVal`, with `none` for
`undefined`); `null` is an explicit value. -/

/-- A JavaScript/JSON value as the engine sees it. -/
inductive JSVal where
  | null
  | bool (b : Bool)
  | num (n : Int)
  | str (s : JStr)
  | arr (elems : List JSVal)
  | obj (fields : List (JStr × JSVal))

/-! ## Record references: `RecordTypeDescriptor.refToId`

From `lib/record-type-descriptor.js` (the revision with `refToId`,
lines 90–108).  The conversion performed by the JavaScript `Number()`
builtin on the id part, together with the `Number.isFinite` test, is kept
abstract as a parameter `jsNumber` returning `none` exactly when the
conversion is not a finite number. -/

/-- The single error `refToId` can raise (`X2SyntaxError`). -/
inductive RefErr where
  | syntaxErr
  deriving DecidableEq, Repr

/-- JS `s.indexOf(c)`: position of the first occurrence (`none` for the
JS result `-1`). -/
def jsIndexOf (c : Char) : JStr → Option Nat
  | [] => none
  | x :: xs => if x = c then some 0 else (jsIndexOf c xs).map Nat.succ

/-- JS `s.startsWith(p)`. -/
def jsFrontIs (p s : JStr) : Bool := (cutPre p s).isSome

/-- `RecordTypeDescriptor.refToId(ref)`: reject a non-string argument, an
argument that does not start with `recordTypeName + '#'`, and an argument
whose first `#` is its last character; then return the part after the
record type name — as a string for a string-typed id, as the (finite)
numeric conversion for a number-typed id, rejecting non-finite
conversions. -/
def refToId (recordTypeName : JStr) (idSvt : ScalarType)
    (jsNumber : JStr → Option Int) (ref : JSVal) : Except RefErr (JStr ⊕ Int) :=
  match ref with
  | JSVal.str r =>
    if !jsFrontIs (recordTypeName ++ ['#']) r ||
        jsIndexOf '#' r = some (r.length - 1) then
      Except.error RefErr.syntaxErr
    else if idSvt = ScalarType.string then
      Except.ok (Sum.inl (r.drop (recordTypeName.length + 1)))
    else
      match jsNumber (r.drop (recordTypeName.length + 1)) with
      | some id => Except.ok (Sum.inr id)
      | none => Except.error RefErr.syntaxErr
  | _ => Except.error RefErr.syntaxErr

theorem jsIndexOf_append_hash {name : JStr} (s : JStr) (hname : '#' ∉ name) :
    jsIndexOf '#' (name ++ '#' :: s) = some name.length := by
  induction name with
  | nil => simp [jsIndexOf]
  | cons c cs ih =>
    have hc : c ≠ '#' := fun h => hname (h ▸ List.mem_cons_self c cs)
    have hcs : '#' ∉ cs := fun h => hname (List.mem_cons_of_mem c h)
    simp [jsIndexOf, hc, ih hcs]

theorem drop_after_hash (name s : JStr) :
    (name ++ '#' :: s).drop (name.length + 1) = s := by
  have : name ++ '#' :: s = (name ++ ['#']) ++ s := by simp
  rw [this, show name.length + 1 = (name ++ ['#']).length by simp]
  exact List.drop_left _ _

theorem jsFrontIs_hash (name s : JStr) :
    jsFrontIs (name ++ ['#']) (name ++ '#' :: s) = true := by
  unfold jsFrontIs
  rw [show name ++ '#' :: s = (name ++ ['#']) ++ s by simp, cutPre_append]
  rfl

theorem refToId_ok_form (name s : JStr) (idSvt : ScalarType)
    (f : JStr → Option Int) (hname : '#' ∉ name) (hs : s ≠ []) :
    refToId name idSvt f (JSVal.str (name ++ '#' :: s)) =
      (if idSvt = ScalarType.string then Except.ok (Sum.inl s)
       else
         match f s with
         | some id => Except.ok (Sum.inr id)
         | none => Except.error RefErr.syntaxErr) := by
  have hslen : s.length ≠ 0 := fun h => hs (List.length_eq_zero.mp h)
  have hlen : (name ++ '#' :: s).length - 1 = name.length + s.length := by
    simp [List.length_append]
  simp only [refToId, jsFrontIs_hash, jsIndexOf_append_hash s hname, hlen,
    drop_after_hash]
  simp [hslen]

/-- C10: for a record type whose id property is string-typed,
`refToId(name + '#' + s)` returns `s` for every non-empty `s`; for a
number-typed id it returns the finite numeric conversion of the part
after `#`; and it raises a syntax error when the argument is not a
string, does not start with `name + '#'`, has nothing after the `#`, or
(for number ids) when the conversion is not finite. -/
theorem refToId_spec (name s : JStr) (f : JStr → Option Int)
    (hname : '#' ∉ name) (hs : s ≠ []) :
    refToId name ScalarType.string f (JSVal.str (name ++ '#' :: s)) =
        Except.ok (Sum.inl s) ∧
    (∀ id, f s = some id →
      refToId name ScalarType.number f (JSVal.str (name ++ '#' :: s)) =
        Except.ok (Sum.inr id)) ∧
    (f s = none →
      refToId name ScalarType.number f (JSVal.str (name ++ '#' :: s)) =
        Except.error RefErr.syntaxErr) ∧
    (∀ idSvt v, (∀ t, v ≠ JSVal.str t) →
      refToId name idSvt f v = Except.error RefErr.syntaxErr) ∧
    (∀ idSvt r, jsFrontIs (name ++ ['#']) r = false →
      refToId name idSvt f (JSVal.str r) = Except.error RefErr.syntaxErr) ∧
    (∀ idSvt, refToId name idSvt f (JSVal.str (name ++ ['#'])) =
      Except.error RefErr.syntaxErr) := by
  refine ⟨?_, ?_, ?_, ?_, ?_, ?_⟩
  · rw [refToId_ok_form name s ScalarType.string f hname hs]
    simp
  · intro id hid
    rw [refToId_ok_form name s ScalarType.number f hname hs]
    simp [hid]
  · intro hnone
    rw [refToId_ok_form name s ScalarType.number f hname hs]
    simp [hnone]
  · intro idSvt v hv
    cases v with
    | str t => exact absurd rfl (hv t)
    | null => rfl
    | bool b => rfl
    | num n => rfl
    | arr es => rfl
    | obj fs => rfl
  · intro idSvt r hr
    simp [refToId, hr]
  · intro idSvt
    have : name ++ ['#'] = name ++ '#' :: ([] : JStr) := rfl
    rw [this]
    have hlen : (name ++ '#' :: ([] : JStr)).length - 1 = name.length := by
      simp [List.length_append]
    simp [refToId, jsFrontIs_hash name [], jsIndexOf_append_hash [] hname, hlen]

/-- Witness for C10 at record type name `Person`, id part `42`, with a
conversion function defined on that input. -/
theorem refToId_spec_witness :
    ('#' ∉ "Person".data ∧ "42".data ≠ ([] : JStr)) ∧
    refToId "Person".data ScalarType.string (fun _ => some 42)
        (JSVal.str ("Person".data ++ '#' :: "42".data)) =
      Except.ok (Sum.inl "42".data) := by
  refine ⟨⟨by decide, by decide⟩, ?_⟩
  exact (refToId_spec "Person".data "42".data (fun _ => some 42)
    (by decide) (by decide)).1

/-! ## Library completion fixpoint

`LibraryConstructionContext.completeLibrary` of
`lib/record-types-library-factory.js` (lines 149–181).  Handlers are
abstract values; `spawn h` lists the handlers that `h` registers via
`onLibraryComplete` while it runs.  During completion `ctxHandlers`
points at `byLibrary`, so all such registrations land there and are
drained by the next iteration. -/

/-- The queues of `_onLibraryCompleteHandlersPlan`: per-extension
`byProperties` and `byContainers` groups plus `byLibrary`. -/
structure HandlersPlan (H : Type) where
  byProperties : List (List H)
  byContainers : List (List H)
  byLibrary : List H

/-- Drain all queues into the `handlers` array, in queue order. -/
def collectHandlers {H : Type} (q : HandlersPlan H) : List H :=
  q.byProperties.flatten ++ q.byContainers.flatten ++ q.byLibrary

/-- The `do … while (handlersCalled > 0)` loop: execute the pending
handlers in order; what they spawn is pending for the next iteration;
stop after an iteration that executed no handler.  `fuel` bounds the
number of iterations, because the loop is not structurally terminating
(a handler that always re-registers itself loops forever — a documented
caller obligation); `none` means the fuel was exhausted before the loop
exited.  On exit, returns the iterations, each listing the handlers it
executed (the final one executed none). -/
def completeLoop {H : Type} (spawn : H → List H) :
    Nat → List H → Option (List (List H))
  | 0, _ => none
  | fuel + 1, pending =>
    if pending.isEmpty then some [[]]
    else
      match completeLoop spawn fuel ((pending.map spawn).flatten) with
      | some iters => some (pending :: iters)
      | none => none

/-- `completeLibrary`: drain the three queue groups once, then iterate to
the fixpoint. -/
def completeLibraryFix {H : Type} (spawn : H → List H) (fuel : Nat)
    (q : HandlersPlan H) : Option (List (List H)) :=
  completeLoop spawn fuel (collectHandlers q)

theorem count_join_map {H : Type} [DecidableEq H] (f : H → List H)
    (l : List H) (h : H) :
    ((l.map f).flatten).count h = (l.map (fun g => (f g).count h)).sum := by
  induction l with
  | nil => rfl
  | cons x xs ih => simp [List.count_append, ih]

theorem completeLoop_spec {H : Type} [DecidableEq H] (spawn : H → List H) :
    ∀ (fuel : Nat) (pending : List H) (iters : List (List H)),
      completeLoop spawn fuel pending = some iters →
      iters ≠ [] ∧ iters.getLast? = some [] ∧
      ∀ h : H, iters.flatten.count h =
        pending.count h +
          ((iters.flatten.map (fun g => (spawn g).count h)).sum) := by
  intro fuel
  induction fuel with
  | zero => intro pending iters hrun; exact absurd hrun (by simp [completeLoop])
  | succ fuel ih =>
    intro pending iters hrun
    by_cases hemp : pending.isEmpty
    · have hpe : pending = [] := List.isEmpty_iff.mp hemp
      simp only [completeLoop, if_pos hemp, Option.some.injEq] at hrun
      subst hrun
      subst hpe
      refine ⟨by simp, rfl, fun h => by simp⟩
    · simp only [completeLoop, if_neg hemp] at hrun
      rcases hm : completeLoop spawn fuel ((pending.map spawn).flatten) with _ | iters2
      · rw [hm] at hrun; exact absurd hrun (by simp)
      · rw [hm] at hrun
        simp only [Option.some.injEq] at hrun
        subst hrun
        obtain ⟨hne, hlast, hcount⟩ := ih _ _ hm
        refine ⟨by simp, ?_, ?_⟩
        · cases iters2 with
          | nil => exact absurd rfl hne
          | cons b bs => rw [List.getLast?_cons_cons]; exact hlast
        · intro h
          have hjm := count_join_map spawn pending h
          simp only [List.flatten, List.count_append, List.map_append,
            List.sum_append]
          have := hcount h
          simp only [List.flatten] at this
          omega

/-- C4: when `completeLibrary` returns (the loop exits within its fuel),
every handler registered via `onLibraryComplete` before completion (the
drained queue groups) or during completion (spawned by a running
handler) has been executed exactly once — the number of executions of
any handler equals the number of its registrations — and the loop
returns only after an iteration in which no handler remained to
execute. -/
theorem completeLibrary_runs_to_fixpoint {H : Type} [DecidableEq H]
    (spawn : H → List H) (fuel : Nat) (q : HandlersPlan H)
    (iters : List (List H))
    (hrun : completeLibraryFix spawn fuel q = some iters) :
    (∀ h : H, iters.flatten.count h =
      (collectHandlers q).count h +
        ((iters.flatten.map (fun g => (spawn g).count h)).sum)) ∧
    iters.getLast? = some [] := by
  obtain ⟨_, hlast, hcount⟩ := completeLoop_spec spawn fuel (collectHandlers q)
    iters hrun
  exact ⟨hcount, hlast⟩

/-- Witness for C4: two extensions' property queues, a container queue and
a library queue; handler `0` spawns handlers `4` and `5`, handler `4`
spawns `6`; the loop settles in four iterations. -/
theorem completeLibrary_runs_to_fixpoint_witness :
    completeLibraryFix
        (fun h => if h = 0 then [4, 5] else if h = 4 then [6] else [])
        10 ⟨[[0], [1]], [[2]], [3]⟩ = some [[0, 1, 2, 3], [4, 5], [6], []] ∧
    (∀ h : Nat, [[0, 1, 2, 3], [4, 5], [6], ([] : List Nat)].flatten.count h =
      (collectHandlers ⟨[[0], [1]], [[2]], [3]⟩).count h +
        (([[0, 1, 2, 3], [4, 5], [6], ([] : List Nat)].flatten.map
          (fun g => ((if g = 0 then [4, 5] else if g = 4 then [6] else
            ([] : List Nat))).count h)).sum)) ∧
    [[0, 1, 2, 3], [4, 5], [6], ([] : List Nat)].getLast? = some [] := by
  refine ⟨by decide, ?_⟩
  exact completeLibrary_runs_to_fixpoint
    (fun h => if h = 0 then [4, 5] else if h = 4 then [6] else [])
    10 ⟨[[0], [1]], [[2]], [3]⟩ [[0, 1, 2, 3], [4, 5], [6], []] (by decide)

/-! ## Pointer engine

`PropertyPointer` and `parse` of the pointers module.  A compiled pointer
is the chain of non-root `PropertyPointer` objects from the root to the
terminal segment; each carries its token, the flags of the property
descriptor it points at, the `collectionElement` flag and the children
container.  The code's chain index `i` (0 at the terminal) equals the
number of chain nodes after the current one. -/

/-- The two error classes the pointer engine raises: `X2UsageError` and
`X2DataError` (the reachability error `No property value at …` and
`Array index is out of bounds` are both `X2DataError`). -/
inductive PtrErr where
  | usage
  | data
  deriving DecidableEq, Repr

/-- A property of the compiled schema, as far as the pointer engine
consumes it: cardinality flags, scalar value type and the nested
properties container (`none` for scalar simple values). -/
inductive PProp where
  | mk (svt : ScalarType) (isArr : Bool) (isMap : Bool)
      (nested : Option (List (JStr × PProp)))

/-- A properties container: named properties in order. -/
abbrev PContainer := List (JStr × PProp)

def PProp.svt : PProp → ScalarType | .mk s _ _ _ => s
def PProp.isArr : PProp → Bool | .mk _ a _ _ => a
def PProp.isMap : PProp → Bool | .mk _ _ m _ => m
def PProp.nested : PProp → Option PContainer | .mk _ _ _ n => n

/-- `container.getPropertyDesc(name)` (returning `none` instead of
throwing for a missing property, as `hasProperty` guards every use). -/
def pLookup : PContainer → JStr → Option PProp
  | [], _ => none
  | (k, p) :: rest, n => if k = n then some p else pLookup rest n

/-- A pointer token: a property name or map key used verbatim, a numeric
array index (converted with `Number(...)` at parse time), or the append
marker `-`. -/
inductive PtrToken where
  | name (n : JStr)
  | index (i : Nat)
  | dash
  deriving DecidableEq, Repr

/-- One non-root link of the compiled pointer chain. -/
structure PtrNode where
  token : PtrToken
  isArr : Bool
  isMap : Bool
  svt : ScalarType
  collElem : Bool
  children : Option PContainer

/-- JS `obj[key]` read on a plain object (`none` = `undefined`). -/
def objGet : List (JStr × JSVal) → JStr → Option JSVal
  | [], _ => none
  | (k, v) :: rest, key => if k = key then some v else objGet rest key

/-- JS `obj[key] = v` on a plain object: overwrite in place, or append a
new key in insertion order. -/
def objSet : List (JStr × JSVal) → JStr → JSVal → List (JStr × JSVal)
  | [], key, v => [(key, v)]
  | (k, w) :: rest, key, v =>
    if k = key then (key, v) :: rest else (k, w) :: objSet rest key v

/-- JS `delete obj[key]`. -/
def objDel : List (JStr × JSVal) → JStr → List (JStr × JSVal)
  | [], _ => []
  | (k, w) :: rest, key => if k = key then rest else (k, w) :: objDel rest key

/-- JS `obj[token]` read: an object keyed by a name, an array indexed by a
number (`undefined` beyond the end); every other combination the engine
reaches (such as `arr['-']`) reads `undefined`. -/
def jsGet (v : JSVal) (t : PtrToken) : Option JSVal :=
  match v, t with
  | JSVal.obj fs, PtrToken.name k => objGet fs k
  | JSVal.arr es, PtrToken.index i => es.get? i
  | _, _ => none

/-- JS `obj[token] = x` write: object key set, array index set (JS pads a
write past the end with holes, read back as `undefined`/`null`); other
combinations leave the value unchanged. -/
def jsSet (v : JSVal) (t : PtrToken) (x : JSVal) : JSVal :=
  match v, t with
  | JSVal.obj fs, PtrToken.name k => JSVal.obj (objSet fs k x)
  | JSVal.arr es, PtrToken.index i =>
    if i < es.length then JSVal.arr (es.set i x)
    else JSVal.arr (es ++ List.replicate (i - es.length) JSVal.null ++ [x])
  | _, _ => v

/-- JS `delete obj[token]` for a keyed object (array elements are removed
through `splice`, never through `delete`, in this engine). -/
def jsDel (v : JSVal) (t : PtrToken) : JSVal :=
  match v, t with
  | JSVal.obj fs, PtrToken.name k => JSVal.obj (objDel fs k)
  | _, _ => v

def JSVal.isNull : JSVal → Bool
  | JSVal.null => true
  | _ => false

/-- `undefined` or `null`, the absence test of `_getImmediateValue`. -/
def nilOrNull : Option JSVal → Bool
  | none => true
  | some JSVal.null => true
  | some _ => false

/-- `PropertyPointer._getImmediateValue(obj, i, forSet)`: value of this
chain node given the value `obj` at its parent.  Returns the (possibly
vivified) parent together with the node's value (`none` = `undefined`).
For the array-property and map-property positions a missing or `null`
container below the terminal is a reachability error (the dead
`token >= obj.length` comparison of the source — a token that is a
property name compared against the `undefined` `length` of a plain
object — is always false and is omitted).  For the remaining positions
(scalar and object properties, array and map elements) a missing value
directly below the terminal (`i == 1`) is auto-created when the
descriptor is an array or a map — attached to the parent only when
`forSet` — and is a reachability error otherwise. -/
def getImmediate (p : PtrNode) (obj : JSVal) (i : Nat) (forSet : Bool) :
    Except PtrErr (JSVal × Option JSVal) :=
  if p.isArr && !p.collElem then
    match p.token with
    | PtrToken.dash => Except.ok (obj, none)
    | _ =>
      if nilOrNull (jsGet obj p.token) && i > 0 then Except.error PtrErr.data
      else Except.ok (obj, jsGet obj p.token)
  else if p.isMap && !p.collElem then
    if nilOrNull (jsGet obj p.token) && i > 0 then Except.error PtrErr.data
    else Except.ok (obj, jsGet obj p.token)
  else
    match (match jsGet obj p.token with | none => JSVal.null | some v => v) with
    | JSVal.null =>
      if i > 1 then Except.error PtrErr.data
      else if i = 1 then
        if p.isArr then
          Except.ok
            ((if forSet then jsSet obj p.token (JSVal.arr []) else obj),
              some (JSVal.arr []))
        else if p.isMap then
          Except.ok
            ((if forSet then jsSet obj p.token (JSVal.obj []) else obj),
              some (JSVal.obj []))
        else Except.error PtrErr.data
      else Except.ok (obj, some JSVal.null)
    | v => Except.ok (obj, some v)

/-- Write the child value back into its slot of the parent, but only when
the slot is attached (a collection element vivified with `forSet` off is
a detached fresh container in the source: mutating it does not affect
the record). -/
def writeIfAttached (p : PtrNode) (parent child : JSVal) : JSVal :=
  match jsGet parent p.token with
  | some _ => jsSet parent p.token child
  | none => parent

/-- `PropertyPointer.getValue(record)`: walk the chain with the
`reduceRight` fold; `none` is the `undefined` result for an absent
terminal collection element. -/
def getChain : List PtrNode → JSVal → Except PtrErr (Option JSVal)
  | [], record => Except.ok (some record)
  | p :: rest, cur =>
    match getImmediate p cur rest.length false with
    | Except.error e => Except.error e
    | Except.ok (_, val) =>
      match rest with
      | [] => Except.ok val
      | _ :: _ =>
        match val with
        | some v => getChain rest v
        | none => Except.error PtrErr.data

/-- The fold of `_setValue`: thread the record state so that the record
at the moment an error is raised is returned alongside it. -/
def setGo : List PtrNode → JSVal → JSVal → Bool → Option PtrErr × JSVal
  | [], cur, _, _ => (none, cur)
  | [t], cur, value, insert =>
    match getImmediate t cur 0 true with
    | Except.error e => (some e, cur)
    | Except.ok _ =>
      if t.collElem && t.isArr then
        match t.token, cur with
        | PtrToken.dash, JSVal.arr es =>
          if insert then (none, JSVal.arr (es ++ [value]))
          else (some PtrErr.usage, JSVal.arr es)
        | PtrToken.index i, JSVal.arr es =>
          if i < es.length then
            if insert then (none, JSVal.arr (es.take i ++ value :: es.drop i))
            else (none, JSVal.arr (es.set i value))
          else (some PtrErr.data, JSVal.arr es)
        | _, _ => (some PtrErr.data, cur)
      else (none, jsSet cur t.token value)
  | p :: rest₁ :: rest₂, cur, value, insert =>
    match getImmediate p cur (rest₁ :: rest₂).length true with
    | Except.error e => (some e, cur)
    | Except.ok (cur₂, some v) =>
      let r := setGo (rest₁ :: rest₂) v value insert
      (r.1, writeIfAttached p cur₂ r.2)
    | Except.ok (cur₂, none) => (some PtrErr.data, cur₂)

/-- The fold of `deleteValue` (never vivifies: `forSet` is off). -/
def deleteGo : List PtrNode → JSVal → Option PtrErr × JSVal
  | [], cur => (none, cur)
  | [t], cur =>
    match getImmediate t cur 0 false with
    | Except.error e => (some e, cur)
    | Except.ok _ =>
      if t.collElem && t.isArr then
        match t.token, cur with
        | PtrToken.dash, _ => (some PtrErr.usage, cur)
        | PtrToken.index i, JSVal.arr es =>
          if i < es.length then
            (none, JSVal.arr (es.take i ++ es.drop (i + 1)))
          else (some PtrErr.data, JSVal.arr es)
        | _, _ => (some PtrErr.data, cur)
      else (none, jsDel cur t.token)
  | p :: rest₁ :: rest₂, cur =>
    match getImmediate p cur (rest₁ :: rest₂).length false with
    | Except.error e => (some e, cur)
    | Except.ok (cur₂, some v) =>
      let r := deleteGo (rest₁ :: rest₂) v
      (r.1, writeIfAttached p cur₂ r.2)
    | Except.ok (cur₂, none) => (some PtrErr.data, cur₂)

/-- `PropertyPointer._setValue(record, value, insert)`: the root pointer
may not be mutated; `null` may not be stored into an object-typed
collection element; then the fold runs.  (`undefined` as the value is
not representable: a caller always supplies a `JSVal`.) -/
def setValue (nodes : List PtrNode) (record value : JSVal) (insert : Bool) :
    Option PtrErr × JSVal :=
  match nodes.getLast? with
  | none => (some PtrErr.usage, record)
  | some t =>
    if value.isNull && t.collElem && t.svt = ScalarType.object then
      (some PtrErr.usage, record)
    else setGo nodes record value insert

/-- `PropertyPointer.addValue`. -/
def addValue (nodes : List PtrNode) (record value : JSVal) :
    Option PtrErr × JSVal :=
  setValue nodes record value true

/-- `PropertyPointer.replaceValue`. -/
def replaceValue (nodes : List PtrNode) (record value : JSVal) :
    Option PtrErr × JSVal :=
  setValue nodes record value false

/-- `PropertyPointer.deleteValue`. -/
def deleteValue (nodes : List PtrNode) (record : JSVal) :
    Option PtrErr × JSVal :=
  match nodes with
  | [] => (some PtrErr.usage, record)
  | _ :: _ => deleteGo nodes record

/-- The token unescaping of `parse`:
`token.replace(/~[01]/g, m => (m === '~0' ? '~' : '/'))`. -/
def unescapeTok : JStr → JStr
  | [] => []
  | '~' :: '0' :: r => '~' :: unescapeTok r
  | '~' :: '1' :: r => '/' :: unescapeTok r
  | c :: r => c :: unescapeTok r

/-- The array index token test `/^(?:0|[1-9][0-9]*)$/`. -/
def isIndexTok : JStr → Bool
  | [] => false
  | ['0'] => true
  | c :: rest =>
    ('1' ≤ c && c ≤ '9') && rest.all (fun d => '0' ≤ d && d ≤ '9')

/-- Decimal value of an index token (`Number(pointerToken)`). -/
def decToNat (t : JStr) : Nat :=
  t.foldl (fun acc c => acc * 10 + (c.toNat - '0'.toNat)) 0

/-- The current position while compiling a pointer: the root (children
are the record type's properties) or the pointer built so far. -/
inductive PtrState where
  | root (children : PContainer)
  | at (node : PtrNode)

/-- Descend into an object position's children container. -/
def objectChild (children : Option PContainer) (tok : JStr) :
    Except PtrErr PtrNode :=
  match children with
  | none => Except.error PtrErr.usage
  | some c =>
    match pLookup c tok with
    | none => Except.error PtrErr.usage
    | some pd =>
      Except.ok
        { token := PtrToken.name tok, isArr := pd.isArr, isMap := pd.isMap,
          svt := pd.svt, collElem := false, children := pd.nested }

/-- `PropertyPointer._createChildPointer(token, …, noDash)`: reject a
segment beyond a dash; an unconsumed array property takes a numeric
index or (unless `noDash`) the dash; an unconsumed map property takes
the token verbatim as a key; otherwise the position must be an
object-valued property (or the root) and the token must name one of its
children. -/
def createChild (st : PtrState) (tok : JStr) (noDash : Bool) :
    Except PtrErr PtrNode :=
  match st with
  | PtrState.root children => objectChild (some children) tok
  | PtrState.at n =>
    if n.collElem && n.isArr && n.token = PtrToken.dash then
      Except.error PtrErr.usage
    else if !n.collElem && n.isArr then
      if tok = ['-'] then
        if noDash then Except.error PtrErr.usage
        else Except.ok { n with token := PtrToken.dash, collElem := true }
      else if isIndexTok tok then
        Except.ok { n with token := PtrToken.index (decToNat tok), collElem := true }
      else Except.error PtrErr.usage
    else if !n.collElem && n.isMap then
      Except.ok { n with token := PtrToken.name tok, collElem := true }
    else if n.svt ≠ ScalarType.object then Except.error PtrErr.usage
    else objectChild n.children tok

/-- The segment loop of `parse`. -/
def parseGo (noDash : Bool) : PtrState → List JStr → List PtrNode →
    Except PtrErr (List PtrNode)
  | _, [], acc => Except.ok acc
  | st, t :: rest, acc =>
    match createChild st (unescapeTok t) noDash with
    | Except.error e => Except.error e
    | Except.ok n => parseGo noDash (PtrState.at n) rest (acc ++ [n])

/-- `parse(recordTypeDesc, propPointer, noDash)`: a non-empty pointer must
start with `/`; split on `/`, unescape each token and build the chain
(the empty pointer compiles to the root chain). -/
def parsePointer (rootChildren : PContainer) (ptr : JStr) (noDash : Bool) :
    Except PtrErr (List PtrNode) :=
  if !ptr.isEmpty && ptr.head? ≠ some '/' then Except.error PtrErr.usage
  else parseGo noDash (PtrState.root rootChildren) ((splitOnChar '/' ptr).drop 1) []

/-! ### Pointer theorems

A record type with a scalar nested-object property `address` (child
`street`), an array-of-object property `items` and a simple number-array
property `nums`. -/

def streetP : PProp := PProp.mk ScalarType.string false false none

def addressP : PProp :=
  PProp.mk ScalarType.object false false (some [("street".data, streetP)])

def itemIdP : PProp := PProp.mk ScalarType.number false false none

def itemsP : PProp :=
  PProp.mk ScalarType.object true false (some [("id".data, itemIdP)])

def numsP : PProp := PProp.mk ScalarType.number true false none

def recContainer : PContainer :=
  [("id".data, itemIdP), ("address".data, addressP),
   ("items".data, itemsP), ("nums".data, numsP)]

def addressNode : PtrNode :=
  ⟨PtrToken.name "address".data, false, false, ScalarType.object, false,
    some [("street".data, streetP)]⟩

def streetNode : PtrNode :=
  ⟨PtrToken.name "street".data, false, false, ScalarType.string, false, none⟩

def itemsNode : PtrNode :=
  ⟨PtrToken.name "items".data, true, false, ScalarType.object, false,
    some [("id".data, itemIdP)]⟩

def dashNode : PtrNode :=
  ⟨PtrToken.dash, true, false, ScalarType.object, true,
    some [("id".data, itemIdP)]⟩

def numsNode : PtrNode :=
  ⟨PtrToken.name "nums".data, true, false, ScalarType.number, false, none⟩

def numIdxNode (i : Nat) : PtrNode :=
  ⟨PtrToken.index i, true, false, ScalarType.number, true, none⟩

example : parsePointer recContainer "/address/street".data false =
    Except.ok [addressNode, streetNode] := rfl

example : parsePointer recContainer "/items/-".data false =
    Except.ok [itemsNode, dashNode] := rfl

example : parsePointer recContainer "/nums/2".data false =
    Except.ok [numsNode, numIdxNode 2] := rfl

theorem objSet_self {fields : List (JStr × JSVal)} {k : JStr} {v : JSVal}
    (h : objGet fields k = some v) : objSet fields k v = fields := by
  induction fields with
  | nil => simp [objGet] at h
  | cons kv rest ih =>
    obtain ⟨k2, v2⟩ := kv
    by_cases hk : k2 = k
    · subst hk
      have hv : v2 = v := by simpa [objGet] using h
      subst hv
      simp [objSet]
    · simp only [objGet, if_neg hk] at h
      simp [objSet, hk, ih h]

theorem getLast?_pair {α : Type} (a b : α) : [a, b].getLast? = some b := rfl

/-- C2 (amended): on the compiled pointer `/address/street`, for every
record in which the scalar nested-object property `address` is absent,
`getValue` raises the reachability (data) error — and `addValue` on the
same pointer raises the same reachability error as well, leaving the
record unchanged: write auto-creation applies only to array and map
values, never to a missing intermediate nested object. -/
theorem pointer_missing_object_get_add (fields : List (JStr × JSVal))
    (h : objGet fields "address".data = none) :
    parsePointer recContainer "/address/street".data false =
      Except.ok [addressNode, streetNode] ∧
    getChain [addressNode, streetNode] (JSVal.obj fields) =
      Except.error PtrErr.data ∧
    ∀ value, addValue [addressNode, streetNode] (JSVal.obj fields) value =
      (some PtrErr.data, JSVal.obj fields) := by
  have himm : ∀ fs : Bool,
      getImmediate addressNode (JSVal.obj fields) 1 fs =
        Except.error PtrErr.data := by
    intro fs
    simp [getImmediate, addressNode, jsGet, h, nilOrNull]
  refine ⟨rfl, ?_, ?_⟩
  · simp only [getChain, List.length_cons, List.length_nil, Nat.zero_add,
      himm false]
  · intro value
    simp only [addValue, setValue, getLast?_pair]
    rw [if_neg (by simp [streetNode])]
    simp only [setGo, List.length_cons, List.length_nil, Nat.zero_add,
      himm true]

/-- Counterexample to C2 as stated: at the empty record, `addValue` on
the compiled pointer `/address/street` does not auto-create the missing
`address` object — it fails with the reachability (data) error, leaving
the record unchanged. -/
theorem pointer_missing_object_add_counterexample :
    addValue [addressNode, streetNode] (JSVal.obj [])
        (JSVal.str "Elm".data) =
      (some PtrErr.data, JSVal.obj []) ∧
    getChain [addressNode, streetNode] (JSVal.obj []) =
      Except.error PtrErr.data :=
  ⟨rfl, rfl⟩

/-- Witness for the amended C2 at the empty record. -/
theorem pointer_missing_object_get_add_witness :
    objGet [] "address".data = none ∧
    getChain [addressNode, streetNode] (JSVal.obj []) =
      Except.error PtrErr.data ∧
    addValue [addressNode, streetNode] (JSVal.obj []) (JSVal.num 7) =
      (some PtrErr.data, JSVal.obj []) :=
  ⟨rfl, (pointer_missing_object_get_add [] rfl).2.1,
    (pointer_missing_object_get_add [] rfl).2.2 (JSVal.num 7)⟩

/-- C8: on the compiled pointer `/items` + dash marker over an
array-of-object property, for every record in which the array exists,
`addValue` appends
the supplied (non-`null`) value at the end of the array, while
`replaceValue` and `deleteValue` raise a usage error and leave the
record unchanged. -/
theorem pointer_dash_append_spec (fields : List (JStr × JSVal))
    (es : List JSVal) (value : JSVal)
    (hit : objGet fields "items".data = some (JSVal.arr es))
    (hv : value.isNull = false) :
    parsePointer recContainer "/items/-".data false =
      Except.ok [itemsNode, dashNode] ∧
    addValue [itemsNode, dashNode] (JSVal.obj fields) value =
      (none, JSVal.obj
        (objSet fields "items".data (JSVal.arr (es ++ [value])))) ∧
    replaceValue [itemsNode, dashNode] (JSVal.obj fields) value =
      (some PtrErr.usage, JSVal.obj fields) ∧
    deleteValue [itemsNode, dashNode] (JSVal.obj fields) =
      (some PtrErr.usage, JSVal.obj fields) := by
  have himm : ∀ fs : Bool,
      getImmediate itemsNode (JSVal.obj fields) 1 fs =
        Except.ok (JSVal.obj fields, some (JSVal.arr es)) := by
    intro fs
    simp [getImmediate, itemsNode, jsGet, hit, nilOrNull]
  have himmd : ∀ fs : Bool,
      getImmediate dashNode (JSVal.arr es) 0 fs =
        Except.ok (JSVal.arr es, some JSVal.null) := by
    intro fs
    simp [getImmediate, dashNode, jsGet, nilOrNull]
  have hwb : ∀ w : JSVal, writeIfAttached itemsNode (JSVal.obj fields) w =
      JSVal.obj (objSet fields "items".data w) := by
    intro w
    simp [writeIfAttached, itemsNode, jsGet, hit, jsSet]
  refine ⟨rfl, ?_, ?_, ?_⟩
  · simp only [addValue, setValue, getLast?_pair]
    rw [if_neg (by simp [dashNode, hv])]
    simp only [setGo, List.length_cons, List.length_nil, Nat.zero_add,
      himm true, himmd true, hwb]
    simp [dashNode]
  · simp only [replaceValue, setValue, getLast?_pair]
    rw [if_neg (by simp [dashNode, hv])]
    simp only [setGo, List.length_cons, List.length_nil, Nat.zero_add,
      himm true, himmd true, hwb]
    simp [dashNode, objSet_self hit]
  · simp only [deleteValue, deleteGo, List.length_cons, List.length_nil,
      Nat.zero_add, himm false, himmd false, hwb]
    simp [dashNode, objSet_self hit]

/-- Witness for C8 at a concrete one-element array. -/
theorem pointer_dash_append_spec_witness :
    objGet [("items".data, JSVal.arr [JSVal.num 1])] "items".data =
      some (JSVal.arr [JSVal.num 1]) ∧
    addValue [itemsNode, dashNode]
        (JSVal.obj [("items".data, JSVal.arr [JSVal.num 1])])
        (JSVal.num 2) =
      (none, JSVal.obj [("items".data, JSVal.arr [JSVal.num 1, JSVal.num 2])]) ∧
    replaceValue [itemsNode, dashNode]
        (JSVal.obj [("items".data, JSVal.arr [JSVal.num 1])])
        (JSVal.num 2) =
      (some PtrErr.usage, JSVal.obj [("items".data, JSVal.arr [JSVal.num 1])]) := by
  have h := pointer_dash_append_spec [("items".data, JSVal.arr [JSVal.num 1])]
    [JSVal.num 1] (JSVal.num 2) rfl rfl
  exact ⟨rfl, h.2.1, h.2.2.1⟩

/-- C9: on a compiled array-element pointer with a numeric index, for
every record in which the parent array is reachable, both `addValue` and
`replaceValue` raise the data error (`Array index is out of bounds`)
whenever the index is at or past the current array length — in
particular `addValue` at the index equal to the length does not append;
only the dash marker appends. -/
theorem pointer_index_out_of_bounds (fields : List (JStr × JSVal))
    (es : List JSVal) (i : Nat) (value : JSVal)
    (hit : objGet fields "nums".data = some (JSVal.arr es))
    (hi : es.length ≤ i) :
    parsePointer recContainer "/nums/2".data false =
      Except.ok [numsNode, numIdxNode 2] ∧
    addValue [numsNode, numIdxNode i] (JSVal.obj fields) value =
      (some PtrErr.data, JSVal.obj fields) ∧
    replaceValue [numsNode, numIdxNode i] (JSVal.obj fields) value =
      (some PtrErr.data, JSVal.obj fields) := by
  have himm : getImmediate numsNode (JSVal.obj fields) 1 true =
      Except.ok (JSVal.obj fields, some (JSVal.arr es)) := by
    simp [getImmediate, numsNode, jsGet, hit, nilOrNull]
  have hget : es[i]? = none := List.getElem?_eq_none hi
  have himmi : getImmediate (numIdxNode i) (JSVal.arr es) 0 true =
      Except.ok (JSVal.arr es, some JSVal.null) := by
    simp [getImmediate, numIdxNode, jsGet, hget, nilOrNull]
  have hwb : writeIfAttached numsNode (JSVal.obj fields) (JSVal.arr es) =
      JSVal.obj fields := by
    simp [writeIfAttached, numsNode, jsGet, hit, jsSet, objSet_self hit]
  have hset : ∀ insert : Bool,
      setValue [numsNode, numIdxNode i] (JSVal.obj fields) value insert =
        (some PtrErr.data, JSVal.obj fields) := by
    intro insert
    simp only [setValue, getLast?_pair]
    rw [if_neg (by simp [numIdxNode])]
    simp only [setGo, List.length_cons, List.length_nil, Nat.zero_add,
      himm, himmi]
    simp [numIdxNode, Nat.not_lt.2 hi, hwb]
  exact ⟨rfl, hset true, hset false⟩

/-- Witness for C9 at index 2 (= length of a two-element array). -/
theorem pointer_index_out_of_bounds_witness :
    objGet [("nums".data, JSVal.arr [JSVal.num 1, JSVal.num 2])] "nums".data =
      some (JSVal.arr [JSVal.num 1, JSVal.num 2]) ∧
    addValue [numsNode, numIdxNode 2]
        (JSVal.obj [("nums".data, JSVal.arr [JSVal.num 1, JSVal.num 2])])
        (JSVal.num 9) =
      (some PtrErr.data,
        JSVal.obj [("nums".data, JSVal.arr [JSVal.num 1, JSVal.num 2])]) := by
  have h := pointer_index_out_of_bounds
    [("nums".data, JSVal.arr [JSVal.num 1, JSVal.num 2])]
    [JSVal.num 1, JSVal.num 2] 2 (JSVal.num 9) rfl (by decide)
  exact ⟨rfl, h.2.1⟩

/-! ## Library construction

`buildLibrary` with the core extension, from the coherent newest revision
set of the repository: the `PropertiesContainer` / `PropertyDescriptor`
revision whose constructor parses the value type (the one with
`defaultModifiable`), the matching core extension (the revision whose
`extendPropertyDescriptor` resolves references on library completion and
whose library validation enforces the id property shape), the
`LibraryConstructionContext` factory and the `RecordTypesLibrary` with
`addRecordTypes`.

The modelled fragment excludes polymorphic containers (a definition
carrying a `subtypes` attribute) and custom factories; a definition
using them stops the model with the distinguished `unmodeled` error, so
every success of the model is a success of the code on the same shape of
input.  Construction recursion is bounded by explicit fuel (`fuelOut`);
any finite definition succeeds under enough fuel.

A resolved reference (`propDesc._nestedProperties =
recordTypes.getRecordTypeDesc(propDesc.refTarget)`) would make the
descriptor graph cyclic, which values cannot be; resolution is therefore
modelled by the completion-time membership check itself: a reference is
resolved exactly when its completion handler found the target in the
finished library. -/

/-- A property / container definition (the duck-typed definition objects
of the external interface, restricted to the modelled fragment;
`hasSubtypes` records the presence of a `subtypes` attribute). -/
inductive PropDef where
  | mk (valueType : Option JStr) (role : Option JStr)
      (optionalAttr : Option Bool) (modifiableAttr : Option Bool)
      (viewOf : Option JStr)
      (properties : Option (List (JStr × PropDef)))
      (hasSubtypes : Bool)

def PropDef.valueType : PropDef → Option JStr | .mk v _ _ _ _ _ _ => v
def PropDef.role : PropDef → Option JStr | .mk _ r _ _ _ _ _ => r
def PropDef.optionalAttr : PropDef → Option Bool | .mk _ _ o _ _ _ _ => o
def PropDef.modifiableAttr : PropDef → Option Bool | .mk _ _ _ m _ _ _ => m
def PropDef.viewOf : PropDef → Option JStr | .mk _ _ _ _ v _ _ => v
def PropDef.properties : PropDef → Option (List (JStr × PropDef))
  | .mk _ _ _ _ _ p _ => p
def PropDef.hasSubtypes : PropDef → Bool | .mk _ _ _ _ _ _ s => s

mutual
/-- A compiled property descriptor: the attributes the
`PropertyDescriptor` constructor computes, the effective definition, the
base descriptor for a view, and the nested properties container. -/
inductive PropDesc where
  | mk (name : JStr) (defn : PropDef) (svt : ScalarType)
      (refTargetRaw : Option JStr)
      (isArray : Bool) (isMap : Bool) (isScalar : Bool)
      (isId : Bool) (opt : Bool) (modif : Bool)
      (viewBase : Option PropDesc) (nested : Option ContainerDesc)

/-- A compiled properties container: record type name, nested path, the
ordered `allPropertyNames`, the property descriptors and the id property
name found at container completion. -/
inductive ContainerDesc where
  | mk (recordTypeName : JStr) (nestedPath : JStr)
      (names : List JStr) (props : List (JStr × PropDesc))
      (idPropName : Option JStr)
end

def PropDesc.name : PropDesc → JStr | .mk n _ _ _ _ _ _ _ _ _ _ _ => n
def PropDesc.defn : PropDesc → PropDef | .mk _ d _ _ _ _ _ _ _ _ _ _ => d
def PropDesc.svt : PropDesc → ScalarType | .mk _ _ s _ _ _ _ _ _ _ _ _ => s
def PropDesc.refTargetRaw : PropDesc → Option JStr
  | .mk _ _ _ r _ _ _ _ _ _ _ _ => r
def PropDesc.isArray : PropDesc → Bool | .mk _ _ _ _ a _ _ _ _ _ _ _ => a
def PropDesc.isMap : PropDesc → Bool | .mk _ _ _ _ _ m _ _ _ _ _ _ => m
def PropDesc.isScalar : PropDesc → Bool | .mk _ _ _ _ _ _ s _ _ _ _ _ => s
def PropDesc.isId : PropDesc → Bool | .mk _ _ _ _ _ _ _ i _ _ _ _ => i
def PropDesc.opt : PropDesc → Bool | .mk _ _ _ _ _ _ _ _ o _ _ _ => o
def PropDesc.modif : PropDesc → Bool | .mk _ _ _ _ _ _ _ _ _ m _ _ => m
def PropDesc.viewBase : PropDesc → Option PropDesc
  | .mk _ _ _ _ _ _ _ _ _ _ v _ => v
def PropDesc.nested : PropDesc → Option ContainerDesc
  | .mk _ _ _ _ _ _ _ _ _ _ _ n => n

def ContainerDesc.recordTypeName : ContainerDesc → JStr
  | .mk r _ _ _ _ => r
def ContainerDesc.nestedPath : ContainerDesc → JStr | .mk _ p _ _ _ => p
def ContainerDesc.names : ContainerDesc → List JStr | .mk _ _ n _ _ => n
def ContainerDesc.props : ContainerDesc → List (JStr × PropDesc)
  | .mk _ _ _ p _ => p
def ContainerDesc.idPropName : ContainerDesc → Option JStr
  | .mk _ _ _ _ i => i

/-- Assoc lookup of a property descriptor (the `_propertyDescs` map). -/
def pdLookup : List (JStr × PropDesc) → JStr → Option PropDesc
  | [], _ => none
  | (k, p) :: rest, n => if k = n then some p else pdLookup rest n

/-- Construction errors: `invalidDef` for the `X2UsageError`s the build
raises on bad definitions, `unmodeled` for definitions outside the
modelled fragment, `fuelOut` when the construction fuel runs out. -/
inductive BuildErr where
  | invalidDef
  | unmodeled
  | fuelOut
  deriving DecidableEq, Repr

/-- A deferred reference-target check registered via `onLibraryComplete`:
the property path and the target record type name. -/
abbrev RefCheck := JStr × JStr

/-- Synthesize the effective definition of a view: the prototype chain
`Object.create(viewOfDesc._definition)` overlaid with the view's own
attributes, rejecting an own `properties` or `subtypes` attribute. -/
def mergeViewDef (base view : PropDef) : Except BuildErr PropDef :=
  if view.properties.isSome || view.hasSubtypes then
    Except.error BuildErr.invalidDef
  else
    Except.ok (PropDef.mk
      (view.valueType <|> base.valueType)
      (view.role <|> base.role)
      (view.optionalAttr <|> base.optionalAttr)
      (view.modifiableAttr <|> base.modifiableAttr)
      (view.viewOf <|> base.viewOf)
      base.properties
      base.hasSubtypes)

/-- The container of a non-scalar simple-value property: one property
named `$value` of the element scalar type (the core extension builds it
through `createPropertiesContainer`; its shape is fixed, so it is
constructed directly). -/
def valueContainer (dm : Bool) (rtName path : JStr) (svt : ScalarType)
    (vt : JStr) : ContainerDesc :=
  ContainerDesc.mk rtName path ["$value".data]
    [("$value".data,
      PropDesc.mk "$value".data
        (PropDef.mk (some vt) none none none none none false)
        svt none false false true false false dm none none)]
    none

/-- The core extension's `onContainerComplete` handler: scan
`allPropertyNames` in order; a second id property is a definition error;
record the single id property name if any. -/
def findIdProp (props : List (JStr × PropDesc)) :
    List JStr → Option JStr → Except BuildErr (Option JStr)
  | [], acc => Except.ok acc
  | n :: rest, acc =>
    match pdLookup props n with
    | none => Except.error BuildErr.invalidDef
    | some p =>
      if p.isId then
        match acc with
        | some _ => Except.error BuildErr.invalidDef
        | none => findIdProp props rest (some n)
      else findIdProp props rest acc

mutual
/-- Build one property descriptor: the `PropertyDescriptor` constructor
(value type parse, id / optionality / modifiability attributes) followed
by the core extension's `extendPropertyDescriptor` (reference target
handling with the deferred membership check, nested containers for
object properties — shared with the base for views — and the `$value`
container for simple-value collections). -/
def buildProperty : Nat → Bool → JStr → JStr → JStr → PropDef →
    Option PropDesc → Except BuildErr (PropDesc × List RefCheck)
  | 0, _, _, _, _, _, _ => Except.error BuildErr.fuelOut
  | fuel + 1, dm, rtName, nestedPath, name, d, viewBase =>
    match d.valueType with
    | none => Except.error BuildErr.invalidDef
    | some vt =>
      match parseValueType vt with
      | none => Except.error BuildErr.invalidDef
      | some pt =>
        let isId := d.role = some "id".data
        let opt :=
          match d.optionalAttr with
          | none => !pt.isScalar
          | some b => b
        let modif :=
          match viewBase, d.modifiableAttr with
          | none, some b => b
          | vb, _ => !isId && vb.isNone && dm
        match pt.svt with
        | ScalarType.ref =>
          match pt.target with
          | none => Except.error BuildErr.invalidDef
          | some raw =>
            if (splitOnChar '|' raw).length > 1 then
              Except.error BuildErr.unmodeled
            else
              Except.ok
                (PropDesc.mk name d ScalarType.ref (some raw)
                  pt.isArray pt.isMap pt.isScalar isId opt modif viewBase none,
                 [(nestedPath ++ name, raw)])
        | ScalarType.object =>
          match viewBase with
          | some vb =>
            Except.ok
              (PropDesc.mk name d ScalarType.object pt.target
                pt.isArray pt.isMap pt.isScalar isId opt modif
                (some vb) vb.nested, [])
          | none =>
            if d.properties.isNone && !d.hasSubtypes then
              Except.error BuildErr.invalidDef
            else
              match buildContainer fuel dm rtName
                  (nestedPath ++ name ++ ['.']) d with
              | Except.error e => Except.error e
              | Except.ok (c, checks) =>
                Except.ok
                  (PropDesc.mk name d ScalarType.object pt.target
                    pt.isArray pt.isMap pt.isScalar isId opt modif
                    none (some c), checks)
        | svt =>
          let nested :=
            if pt.isScalar then none
            else some (valueContainer dm rtName
              (nestedPath ++ name ++ ['.']) svt vt)
          Except.ok
            (PropDesc.mk name d svt pt.target
              pt.isArray pt.isMap pt.isScalar isId opt modif
              viewBase nested, [])

/-- First pass of `addProperties`: build the non-view properties in
definition order and collect the views (in definition order). -/
def addPlain : Nat → Bool → JStr → JStr → List (JStr × PropDef) →
    List (JStr × PropDesc) → List RefCheck → List (JStr × PropDef) →
    Except BuildErr
      (List (JStr × PropDesc) × List RefCheck × List (JStr × PropDef))
  | _, _, _, _, [], props, checks, views =>
    Except.ok (props, checks, views)
  | 0, _, _, _, _ :: _, _, _, _ => Except.error BuildErr.fuelOut
  | fuel + 1, dm, rtName, nestedPath, (n, d) :: rest, props, checks, views =>
    if d.viewOf.isSome then
      addPlain fuel dm rtName nestedPath rest props checks (views ++ [(n, d)])
    else
      match buildProperty fuel dm rtName nestedPath n d none with
      | Except.error e => Except.error e
      | Except.ok (p, cks) =>
        addPlain fuel dm rtName nestedPath rest
          (props ++ [(n, p)]) (checks ++ cks) views

/-- Second pass of `addProperties`: for each view in order, resolve the
base descriptor (missing base and view-of-a-view are definition errors),
synthesize the effective definition and build the view's descriptor. -/
def addViews : Nat → Bool → JStr → JStr → List (JStr × PropDef) →
    List (JStr × PropDesc) → List RefCheck →
    Except BuildErr (List (JStr × PropDesc) × List RefCheck)
  | _, _, _, _, [], props, checks => Except.ok (props, checks)
  | 0, _, _, _, _ :: _, _, _ => Except.error BuildErr.fuelOut
  | fuel + 1, dm, rtName, nestedPath, (n, d) :: rest, props, checks =>
    match d.viewOf with
    | none => Except.error BuildErr.invalidDef
    | some baseName =>
      match pdLookup props baseName with
      | none => Except.error BuildErr.invalidDef
      | some baseDesc =>
        if baseDesc.viewBase.isSome then Except.error BuildErr.invalidDef
        else
          match mergeViewDef baseDesc.defn d with
          | Except.error e => Except.error e
          | Except.ok m =>
            match buildProperty fuel dm rtName nestedPath n m
                (some baseDesc) with
            | Except.error e => Except.error e
            | Except.ok (p, cks) =>
              addViews fuel dm rtName nestedPath rest
                (props ++ [(n, p)]) (checks ++ cks)

/-- Build a properties container: the constructor (polymorphic containers
are outside the fragment), `addProperties` (plain pass, then views), and
container completion (the id scan). -/
def buildContainer : Nat → Bool → JStr → JStr → PropDef →
    Except BuildErr (ContainerDesc × List RefCheck)
  | 0, _, _, _, _ => Except.error BuildErr.fuelOut
  | fuel + 1, dm, rtName, nestedPath, cdef =>
    if cdef.hasSubtypes then Except.error BuildErr.unmodeled
    else
      let pdefs := cdef.properties.getD []
      match addPlain fuel dm rtName nestedPath pdefs [] [] [] with
      | Except.error e => Except.error e
      | Except.ok (props, checks, views) =>
        match addViews fuel dm rtName nestedPath views props checks with
        | Except.error e => Except.error e
        | Except.ok (props2, checks2) =>
          let names := pdefs.map Prod.fst
          match findIdProp props2 names none with
          | Except.error e => Except.error e
          | Except.ok idName =>
            Except.ok
              (ContainerDesc.mk rtName nestedPath names props2 idName,
               checks2)
end

/-- Assoc lookup of a record type descriptor (`_recordTypeDescs`). -/
def cdLookup : List (JStr × ContainerDesc) → JStr → Option ContainerDesc
  | [], _ => none
  | (k, c) :: rest, n => if k = n then some c else cdLookup rest n

/-- `this._recordTypeDescs[name] = …`: overwrite or append. -/
def cdSet : List (JStr × ContainerDesc) → JStr → ContainerDesc →
    List (JStr × ContainerDesc)
  | [], name, c => [(name, c)]
  | (k, w) :: rest, name, c =>
    if k = name then (name, c) :: rest else (k, w) :: cdSet rest name c

/-- The record types library: record type descriptors in insertion order. -/
structure Library where
  types : List (JStr × ContainerDesc)

/-- `RecordTypesLibrary.hasRecordType`. -/
def hasRecordType (lib : Library) (n : JStr) : Bool := (cdLookup lib.types n).isSome

/-- `RecordTypesLibrary.addRecordType`: build the record type descriptor
(a container with empty nested path) and store it. -/
def addRecordTypeStep (fuel : Nat) (dm : Bool) (lib : Library) (name : JStr)
    (d : PropDef) : Except BuildErr (Library × List RefCheck) :=
  match buildContainer fuel dm name [] d with
  | Except.error e => Except.error e
  | Except.ok (c, checks) => Except.ok (⟨cdSet lib.types name c⟩, checks)

/-- `RecordTypesLibrary.addRecordTypes`: iterate the definitions in
order. -/
def addRecordTypesGo (fuel : Nat) (dm : Bool) :
    List (JStr × PropDef) → Library → List RefCheck →
    Except BuildErr (Library × List RefCheck)
  | [], lib, checks => Except.ok (lib, checks)
  | (n, d) :: rest, lib, checks =>
    match addRecordTypeStep fuel dm lib n d with
    | Except.error e => Except.error e
    | Except.ok (lib2, cks) => addRecordTypesGo fuel dm rest lib2 (checks ++ cks)

/-- Run the deferred reference-target checks collected via
`onLibraryComplete` against the finished library.  In the modelled
fragment these handlers register no further handlers, so the completion
fixpoint (`completeLibraryFix`) reaches its empty iteration right after
this single productive one. -/
def runRefChecks (lib : Library) : List RefCheck → Except BuildErr Unit
  | [] => Except.ok ()
  | (_, target) :: rest =>
    if hasRecordType lib target then runRefChecks lib rest
    else Except.error BuildErr.invalidDef

/-- The per-property library validation of the core extension: an id
property must be a scalar, required, non-modifiable number or string; a
view may not be modifiable. -/
def propAttrsOk (p : PropDesc) : Bool :=
  (if p.isId then
    p.isScalar && (p.svt = ScalarType.number || p.svt = ScalarType.string)
      && !p.opt && !p.modif
   else true)
  && (if p.viewBase.isSome then !p.modif else true)

/-- Run the per-property validators over a descriptor forest (the
validators were registered for every property, including those of nested
containers; the success set does not depend on registration order). -/
def validateProps : Nat → List (JStr × PropDesc) → Except BuildErr Unit
  | _, [] => Except.ok ()
  | 0, _ :: _ => Except.error BuildErr.fuelOut
  | fuel + 1, (_, p) :: rest =>
    if !propAttrsOk p then Except.error BuildErr.invalidDef
    else
      match p.nested with
      | none => validateProps fuel rest
      | some c =>
        match validateProps fuel c.props with
        | Except.ok _ => validateProps fuel rest
        | Except.error e => Except.error e

/-- The container-level library validation for record types: a record
type name may not contain `#`, and a record type must have an id
property; then the per-property validators run. -/
def validateLibraryTypes (fuel : Nat) :
    List (JStr × ContainerDesc) → Except BuildErr Unit
  | [] => Except.ok ()
  | (_, c) :: rest =>
    if (jsIndexOf '#' c.recordTypeName).isSome then Except.error BuildErr.invalidDef
    else if c.idPropName.isNone then Except.error BuildErr.invalidDef
    else
      match validateProps fuel c.props with
      | Except.ok _ => validateLibraryTypes fuel rest
      | Except.error e => Except.error e

/-- `RecordTypesLibraryFactory.buildLibrary`: add all record types, run
library completion (the deferred reference checks), then the registered
validators; return the library only when everything passed. -/
def buildLibrary (fuel : Nat) (dm : Bool) (defs : List (JStr × PropDef)) :
    Except BuildErr Library :=
  match addRecordTypesGo fuel dm defs ⟨[]⟩ [] with
  | Except.error e => Except.error e
  | Except.ok (lib, checks) =>
    match runRefChecks lib checks with
    | Except.error e => Except.error e
    | Except.ok _ =>
      match validateLibraryTypes fuel lib.types with
      | Except.error e => Except.error e
      | Except.ok _ => Except.ok lib

/-! ### The construction context's `addRecordType` (C7) -/

/-- Errors of `LibraryConstructionContext.addRecordType`: the phase guard
(`X2UsageError('Wrong invocation.')`), the duplicate-name guard
(`X2UsageError('… already exists.')`), or a failure of the record type
construction itself. -/
inductive CtxErr where
  | wrongInvocation
  | alreadyExists
  | buildFailed (e : BuildErr)
  deriving DecidableEq, Repr

/-- The construction context as `addRecordType` sees it: the
`_completingLibrary` phase flag and the library under construction. -/
structure BuildCtx where
  completingLibrary : Bool
  lib : Library

/-- `LibraryConstructionContext.addRecordType(name, def)`: refuse unless
the library completion phase is running; refuse an existing name; then
delegate to the library (the reference checks the added type registers
join the running completion fixpoint, see `completeLibraryFix`). -/
def ctxAddRecordType (fuel : Nat) (dm : Bool) (ctx : BuildCtx)
    (name : JStr) (d : PropDef) : Option CtxErr × BuildCtx :=
  if !ctx.completingLibrary then (some CtxErr.wrongInvocation, ctx)
  else if hasRecordType ctx.lib name then (some CtxErr.alreadyExists, ctx)
  else
    match addRecordTypeStep fuel dm ctx.lib name d with
    | Except.error e => (some (CtxErr.buildFailed e), ctx)
    | Except.ok (lib2, _) => (none, { ctx with lib := lib2 })

/-- Shorthand for a simple property definition carrying only a value
type and possibly the id role. -/
def simpleDef (vt : JStr) (idRole : Bool) : PropDef :=
  PropDef.mk (some vt) (if idRole then some "id".data else none)
    none none none none false

/-- Shorthand for a record type definition with the given properties. -/
def rtDef (props : List (JStr × PropDef)) : PropDef :=
  PropDef.mk none none none none none (some props) false

example : ∃ lib, buildLibrary 20 true
    [("A".data, rtDef [("id".data, simpleDef "number".data true)])] =
      Except.ok lib := ⟨_, rfl⟩

example : buildLibrary 20 true
    [("A".data, rtDef [("id".data, simpleDef "number".data true),
      ("other".data, simpleDef "number".data true)])] =
      Except.error BuildErr.invalidDef := rfl

example : buildLibrary 20 true
    [("A".data, rtDef [("name".data, simpleDef "string".data false)])] =
      Except.error BuildErr.invalidDef := rfl

example : buildLibrary 20 true
    [("A".data, rtDef [("id".data, simpleDef "number".data true),
      ("b".data, simpleDef "ref(B)".data false)])] =
      Except.error BuildErr.invalidDef := rfl

/-- C7: the context's `addRecordType` succeeds only while the
library-completion phase is running: with the phase flag down it fails
with the usage error (`Wrong invocation.`) and leaves the library
untouched; with the flag up but the name already present it fails with
the already-exists error and leaves the library untouched; and a
successful call implies the flag was up and the name was new. -/
theorem ctx_addRecordType_phase_guard (fuel : Nat) (dm : Bool)
    (ctx : BuildCtx) (name : JStr) (d : PropDef) :
    (ctx.completingLibrary = false →
      ctxAddRecordType fuel dm ctx name d =
        (some CtxErr.wrongInvocation, ctx)) ∧
    (ctx.completingLibrary = true → hasRecordType ctx.lib name = true →
      ctxAddRecordType fuel dm ctx name d =
        (some CtxErr.alreadyExists, ctx)) ∧
    (∀ ctx2, ctxAddRecordType fuel dm ctx name d = (none, ctx2) →
      ctx.completingLibrary = true ∧ hasRecordType ctx.lib name = false) := by
  refine ⟨?_, ?_, ?_⟩
  · intro h
    simp [ctxAddRecordType, h]
  · intro h1 h2
    simp [ctxAddRecordType, h1, h2]
  · intro ctx2 h
    by_cases h1 : ctx.completingLibrary
    · by_cases h2 : hasRecordType ctx.lib name
      · simp [ctxAddRecordType, h1, h2] at h
      · exact ⟨h1, by simpa using h2⟩
    · simp [ctxAddRecordType, h1] at h

/-- A sample record type descriptor used by the C7 witness. -/
def sampleRT : ContainerDesc := ContainerDesc.mk "A".data [] [] [] none

/-- Witness for C7: outside the completion phase the call is refused;
inside it a duplicate name is refused. -/
theorem ctx_addRecordType_phase_guard_witness :
    ctxAddRecordType 20 true ⟨false, ⟨[]⟩⟩ "A".data (rtDef []) =
      (some CtxErr.wrongInvocation, ⟨false, ⟨[]⟩⟩) ∧
    ctxAddRecordType 20 true ⟨true, ⟨[("A".data, sampleRT)]⟩⟩ "A".data
        (rtDef []) =
      (some CtxErr.alreadyExists, ⟨true, ⟨[("A".data, sampleRT)]⟩⟩) :=
  ⟨(ctx_addRecordType_phase_guard 20 true ⟨false, ⟨[]⟩⟩ "A".data
      (rtDef [])).1 rfl,
   (ctx_addRecordType_phase_guard 20 true ⟨true, ⟨[("A".data, sampleRT)]⟩⟩
      "A".data (rtDef [])).2.1 rfl rfl⟩

/-! ### C1: the id-property invariant -/

/-- Whether the container property named `n` carries the id role. -/
def isIdName (props : List (JStr × PropDesc)) (n : JStr) : Bool :=
  match pdLookup props n with
  | some p => p.isId
  | none => false

theorem pdLookup_mem {props : List (JStr × PropDesc)} {n : JStr}
    {p : PropDesc} (h : pdLookup props n = some p) : (n, p) ∈ props := by
  induction props with
  | nil => simp [pdLookup] at h
  | cons kv rest ih =>
    obtain ⟨k, q⟩ := kv
    by_cases hk : k = n
    · subst hk
      have hq : q = p := by simpa [pdLookup] using h
      subst hq
      exact List.mem_cons_self _ _
    · simp only [pdLookup, if_neg hk] at h
      exact List.mem_cons_of_mem _ (ih h)

theorem findIdProp_spec (props : List (JStr × PropDesc)) :
    ∀ (names : List JStr) (acc r : Option JStr),
      findIdProp props names acc = Except.ok r →
      (names.countP (fun n => isIdName props n) +
          (if acc.isSome then 1 else 0) = (if r.isSome then 1 else 0)) ∧
      (∀ i, r = some i → acc = some i ∨
        ∃ p, pdLookup props i = some p ∧ p.isId = true) := by
  intro names
  induction names with
  | nil =>
    intro acc r h
    simp only [findIdProp, Except.ok.injEq] at h
    subst h
    exact ⟨by simp, fun i hi => Or.inl hi⟩
  | cons n rest ih =>
    intro acc r h
    simp only [findIdProp] at h
    rcases hl : pdLookup props n with _ | p
    · simp only [hl] at h; exact absurd h (by simp)
    · simp only [hl] at h
      by_cases hid : p.isId
      · rw [if_pos hid] at h
        cases acc with
        | some a => exact absurd h (by simp)
        | none =>
          obtain ⟨hc, hr⟩ := ih (some n) r h
          refine ⟨?_, ?_⟩
          · have hn : isIdName props n = true := by simp [isIdName, hl, hid]
            simp only [List.countP_cons, hn, if_pos]
            simpa using hc
          · intro i hi
            rcases hr i hi with hacc | hex
            · right
              obtain rfl : n = i := by simpa using hacc
              exact ⟨p, hl, hid⟩
            · exact Or.inr hex
      · rw [if_neg hid] at h
        obtain ⟨hc, hr⟩ := ih acc r h
        refine ⟨?_, hr⟩
        have hn : isIdName props n = false := by
          simp [isIdName, hl]
          exact Bool.of_not_eq_true hid
        simp only [List.countP_cons, hn]
        simpa using hc

theorem cdSet_mem {ts : List (JStr × ContainerDesc)} {name : JStr}
    {c : ContainerDesc} {x : JStr × ContainerDesc}
    (h : x ∈ cdSet ts name c) : x = (name, c) ∨ x ∈ ts := by
  induction ts with
  | nil => simpa [cdSet] using h
  | cons kv rest ih =>
    obtain ⟨k, w⟩ := kv
    by_cases hk : k = name
    · subst hk
      simp only [cdSet, if_pos rfl] at h
      rcases List.mem_cons.mp h with h1 | h2
      · exact Or.inl h1
      · exact Or.inr (List.mem_cons_of_mem _ h2)
    · simp only [cdSet, if_neg hk] at h
      rcases List.mem_cons.mp h with h1 | h2
      · exact Or.inr (h1 ▸ List.mem_cons_self _ _)
      · rcases ih h2 with h3 | h4
        · exact Or.inl h3
        · exact Or.inr (List.mem_cons_of_mem _ h4)

/-- Every descriptor of a successfully built library is the output of a
successful record type container construction. -/
theorem addRecordTypesGo_types (fuel : Nat) (dm : Bool) :
    ∀ (defs : List (JStr × PropDef)) (lib0 : Library) (checks0 : List RefCheck)
      (lib : Library) (checks : List RefCheck),
      addRecordTypesGo fuel dm defs lib0 checks0 = Except.ok (lib, checks) →
      ∀ nc ∈ lib.types, nc ∈ lib0.types ∨
        ∃ d cks, buildContainer fuel dm nc.1 [] d = Except.ok (nc.2, cks) := by
  intro defs
  induction defs with
  | nil =>
    intro lib0 checks0 lib checks h nc hm
    simp only [addRecordTypesGo, Except.ok.injEq, Prod.mk.injEq] at h
    obtain ⟨h1, h2⟩ := h
    subst h1
    exact Or.inl hm
  | cons nd rest ih =>
    intro lib0 checks0 lib checks h nc hm
    obtain ⟨n, d⟩ := nd
    simp only [addRecordTypesGo] at h
    rcases hs : addRecordTypeStep fuel dm lib0 n d with e | lc
    · simp only [hs] at h; exact absurd h (by simp)
    · simp only [hs] at h
      obtain ⟨lib1, cks1⟩ := lc
      rcases ih lib1 _ lib checks h nc hm with h1 | h2
      · -- nc came from the step: either the inserted pair or an old one
        simp only [addRecordTypeStep] at hs
        rcases hb : buildContainer fuel dm n [] d with e | cc
        · simp only [hb] at hs; exact absurd hs (by simp)
        · simp only [hb] at hs
          obtain ⟨c, cks⟩ := cc
          simp only [Except.ok.injEq, Prod.mk.injEq] at hs
          rw [← hs.1] at h1
          simp only [Library.mk.injEq] at h1 ⊢
          rcases cdSet_mem h1 with h3 | h4
          · subst h3
            exact Or.inr ⟨d, cks, hb⟩
          · exact Or.inl h4
      · exact Or.inr h2

/-- A successfully built container records exactly the id scan's result. -/
theorem buildContainer_scan {fuel : Nat} {dm : Bool} {rt path : JStr}
    {cdef : PropDef} {c : ContainerDesc} {cks : List RefCheck}
    (h : buildContainer fuel dm rt path cdef = Except.ok (c, cks)) :
    findIdProp c.props c.names none = Except.ok c.idPropName := by
  cases fuel with
  | zero => exact absurd h (by simp [buildContainer])
  | succ fuel =>
    simp only [buildContainer] at h
    by_cases hsub : cdef.hasSubtypes
    · rw [if_pos hsub] at h; exact absurd h (by simp)
    · rw [if_neg hsub] at h
      rcases h1 : addPlain fuel dm rt path (cdef.properties.getD []) [] [] []
        with e | pcv
      · simp only [h1] at h; exact absurd h (by simp)
      · simp only [h1] at h
        obtain ⟨props, checks, views⟩ := pcv
        rcases h2 : addViews fuel dm rt path views props checks with e | pc2
        · simp only [h2] at h; exact absurd h (by simp)
        · simp only [h2] at h
          obtain ⟨props2, checks2⟩ := pc2
          rcases h3 : findIdProp props2 ((cdef.properties.getD []).map
            Prod.fst) none with e | idn
          · simp only [h3] at h; exact absurd h (by simp)
          · simp only [h3] at h
            simp only [Except.ok.injEq, Prod.mk.injEq] at h
            rw [← h.1]
            simpa [ContainerDesc.props, ContainerDesc.names,
              ContainerDesc.idPropName] using h3

theorem validateProps_attrs :
    ∀ (fuel : Nat) (props : List (JStr × PropDesc)),
      validateProps fuel props = Except.ok () →
      ∀ np ∈ props, propAttrsOk np.2 = true := by
  intro fuel
  induction fuel with
  | zero =>
    intro props h np hm
    cases props with
    | nil => simp at hm
    | cons kp rest => exact absurd h (by simp [validateProps])
  | succ fuel ih =>
    intro props h np hm
    cases props with
    | nil => simp at hm
    | cons kp rest =>
      obtain ⟨k, p⟩ := kp
      simp only [validateProps] at h
      by_cases hok : propAttrsOk p
      · rw [if_neg (by simp [hok])] at h
        rcases List.mem_cons.mp hm with h1 | h2
        · rw [h1]; exact hok
        · rcases hn : p.nested with _ | c
          · simp only [hn] at h
            exact ih rest h np h2
          · simp only [hn] at h
            rcases hv : validateProps fuel c.props with e | u
            · simp only [hv] at h; exact absurd h (by simp)
            · simp only [hv] at h
              exact ih rest h np h2
      · rw [if_pos (by simp [hok])] at h
        exact absurd h (by simp)

theorem validateLibraryTypes_spec (fuel : Nat) :
    ∀ (ts : List (JStr × ContainerDesc)),
      validateLibraryTypes fuel ts = Except.ok () →
      ∀ nc ∈ ts, nc.2.idPropName.isSome = true ∧
        validateProps fuel nc.2.props = Except.ok () := by
  intro ts
  induction ts with
  | nil => intro _ nc hm; simp at hm
  | cons kc rest ih =>
    intro h nc hm
    obtain ⟨k, c⟩ := kc
    simp only [validateLibraryTypes] at h
    by_cases hh : (jsIndexOf '#' c.recordTypeName).isSome
    · rw [if_pos hh] at h; exact absurd h (by simp)
    · rw [if_neg hh] at h
      by_cases hi : c.idPropName.isNone
      · rw [if_pos hi] at h; exact absurd h (by simp)
      · rw [if_neg hi] at h
        rcases hv : validateProps fuel c.props with e | u
        · simp only [hv] at h; exact absurd h (by simp)
        · simp only [hv] at h
          rcases List.mem_cons.mp hm with h1 | h2
          · subst h1
            refine ⟨?_, hv⟩
            simpa [Option.isNone_iff_eq_none, Option.isSome_iff_ne_none]
              using hi
          · exact ih h nc h2

/-- C1: in every library `buildLibrary` returns successfully, every
record type has exactly one property with the id role, and that property
is scalar, required (not optional), non-modifiable, with scalar value
type `number` or `string`. -/
theorem record_type_id_invariant (fuel : Nat) (dm : Bool)
    (defs : List (JStr × PropDef)) (lib : Library)
    (h : buildLibrary fuel dm defs = Except.ok lib) :
    ∀ nc ∈ lib.types,
      nc.2.names.countP (fun n => isIdName nc.2.props n) = 1 ∧
      ∃ i p, nc.2.idPropName = some i ∧ pdLookup nc.2.props i = some p ∧
        p.isId = true ∧ p.isScalar = true ∧
        (p.svt = ScalarType.number ∨ p.svt = ScalarType.string) ∧
        p.opt = false ∧ p.modif = false := by
  simp only [buildLibrary] at h
  rcases ha : addRecordTypesGo fuel dm defs ⟨[]⟩ [] with e | lc
  · simp only [ha] at h; exact absurd h (by simp)
  · simp only [ha] at h
    obtain ⟨lib1, checks⟩ := lc
    rcases hr : runRefChecks lib1 checks with e | u
    · simp only [hr] at h; exact absurd h (by simp)
    · simp only [hr] at h
      rcases hv : validateLibraryTypes fuel lib1.types with e | u2
      · simp only [hv] at h; exact absurd h (by simp)
      · simp only [hv] at h
        simp only [Except.ok.injEq] at h
        subst h
        intro nc hm
        rcases addRecordTypesGo_types fuel dm defs ⟨[]⟩ [] lib1 checks ha
          nc hm with h0 | ⟨d, cks, hb⟩
        · simp at h0
        · have hscan := buildContainer_scan hb
          obtain ⟨hsome, hvp⟩ := validateLibraryTypes_spec fuel lib1.types
            hv nc hm
          rcases hid : nc.2.idPropName with _ | i
          · rw [hid] at hsome; simp at hsome
          · rw [hid] at hscan
            obtain ⟨hcount, hident⟩ := findIdProp_spec nc.2.props nc.2.names
              none (some i) hscan
            rcases hident i rfl with hacc | ⟨p, hlp, hpid⟩
            · simp at hacc
            · have hattrs := validateProps_attrs fuel nc.2.props hvp
                (i, p) (pdLookup_mem hlp)
              simp only [propAttrsOk, hpid, if_pos, Bool.and_eq_true,
                Bool.not_eq_true'] at hattrs
              refine ⟨by simpa using hcount, i, p, rfl, hlp, hpid, ?_⟩
              have h1 := hattrs.1
              simp only [Bool.and_eq_true, decide_eq_true_eq,
                Bool.or_eq_true] at h1
              exact ⟨h1.1.1.1, h1.1.1.2, h1.1.2, h1.2⟩

/-- The definitions, library and record type container of the C1 witness. -/
def defsA : List (JStr × PropDef) :=
  [("A".data, rtDef [("id".data, simpleDef "number".data true)])]

def libA : Library := ((buildLibrary 20 true defsA).toOption).getD ⟨[]⟩

def cAv : ContainerDesc := (cdLookup libA.types "A".data).getD sampleRT

/-- Witness for C1 at a one-type library. -/
theorem record_type_id_invariant_witness :
    buildLibrary 20 true defsA = Except.ok libA ∧
    cAv.names.countP (fun n => isIdName cAv.props n) = 1 ∧
    cAv.idPropName = some "id".data := by
  have hmem : ("A".data, cAv) ∈ libA.types := by
    rw [show libA.types = [("A".data, cAv)] from rfl]
    exact List.mem_singleton.2 rfl
  have h := record_type_id_invariant 20 true defsA libA rfl ("A".data, cAv) hmem
  exact ⟨rfl, h.1, rfl⟩

/-! ### C5: forward references -/

/-- An id property definition of value type `number`. -/
def idNumDef : PropDef := simpleDef "number".data true

/-- A scalar reference property definition targeting `t`. -/
def refDef (t : JStr) : PropDef :=
  PropDef.mk (some ("ref(".data ++ (t ++ [')']))) none none none none none false

/-- The descriptor the build computes for `idNumDef` under the name
`id`. -/
def idNumDesc : PropDesc :=
  PropDesc.mk "id".data idNumDef ScalarType.number none
    false false true true false false none none

/-- The descriptor the build computes for `refDef t` under the name
`other` (resolution of the target is the completion-time membership
check, see the section comment). -/
def refPropDesc (dm : Bool) (t : JStr) : PropDesc :=
  PropDesc.mk "other".data (refDef t) ScalarType.ref (some t)
    false false true false false dm none none

/-- A record type with a number id and one reference to `t`. -/
def refRTDef (t : JStr) : PropDef :=
  rtDef [("id".data, idNumDef), ("other".data, refDef t)]

/-- Its compiled container. -/
def refRTDesc (dm : Bool) (rt t : JStr) : ContainerDesc :=
  ContainerDesc.mk rt [] ["id".data, "other".data]
    [("id".data, idNumDesc), ("other".data, refPropDesc dm t)]
    (some "id".data)

theorem parseValueType_refForm (t : JStr) (hid : IsIdent t) :
    parseValueType ("ref(".data ++ (t ++ [')'])) =
      some ⟨ScalarType.ref, some t, false, false, true⟩ := by
  have hne : t ≠ [] := hid.1
  have hns : t.all (fun ch => !isJsSpace ch) = true :=
    List.all_eq_true.2 (fun ch hch => by simp [(hid.2 ch hch).1])
  have hexec : execValueTypeRE ("ref(".data ++ (t ++ [')'])) =
      some (ScalarType.ref, some t) := by
    unfold execValueTypeRE
    simp only [matchBase_refForm t hne hns]
  have hew1 : jsEndsWith "[]".data ("ref(".data ++ (t ++ [')'])) = false := by
    rw [show ("ref(".data ++ (t ++ [')'])) = ("ref(".data ++ t) ++ [')'] by simp]
    exact jsEndsWith_last_ne _ (by decide)
  have hew2 : jsEndsWith "{}".data ("ref(".data ++ (t ++ [')'])) = false := by
    rw [show ("ref(".data ++ (t ++ [')'])) = ("ref(".data ++ t) ++ [')'] by simp]
    exact jsEndsWith_last_ne _ (by decide)
  unfold parseValueType
  rw [hexec]
  simp only [Option.map_some', hew1, hew2]
  rfl

theorem buildProperty_idNum (f : Nat) (dm : Bool) (rt path : JStr) :
    buildProperty (f + 1) dm rt path "id".data idNumDef none =
      Except.ok (idNumDesc, []) := rfl

theorem buildProperty_refDef (f : Nat) (dm : Bool) (rt path t : JStr)
    (hid : IsIdent t) :
    buildProperty (f + 1) dm rt path "other".data (refDef t) none =
      Except.ok (refPropDesc dm t, [(path ++ "other".data, t)]) := by
  have hsplit : splitOnChar '|' t = [t] :=
    splitOnChar_no_sep (fun hch => ((hid.2 '|' hch).2) rfl)
  simp only [buildProperty, refDef, PropDef.valueType,
    parseValueType_refForm t hid, PropDef.role, PropDef.optionalAttr,
    PropDef.modifiableAttr, hsplit]
  simp [refPropDesc, refDef]

theorem buildContainer_refRT (f : Nat) (dm : Bool) (rt t : JStr)
    (hid : IsIdent t) :
    buildContainer (f + 1 + 1 + 1 + 1) dm rt [] (refRTDef t) =
      Except.ok (refRTDesc dm rt t, [("other".data, t)]) := by
  simp only [buildContainer, refRTDef, rtDef, PropDef.hasSubtypes,
    PropDef.properties, Option.getD, addPlain, PropDef.viewOf,
    Option.isSome, buildProperty_idNum (f + 1) dm rt [],
    buildProperty_refDef f dm rt [] t hid, addViews]
  simp [addViews, findIdProp, pdLookup, idNumDesc, refPropDesc,
    PropDesc.isId, refRTDesc, idNumDef, simpleDef, refDef]

theorem jsIndexOf_eq_none {c : Char} {l : JStr} (h : c ∉ l) :
    jsIndexOf c l = none := by
  induction l with
  | nil => rfl
  | cons x xs ih =>
    have hx : x ≠ c := fun he => h (he ▸ List.mem_cons_self x xs)
    simp [jsIndexOf, hx, ih (fun hm => h (List.mem_cons_of_mem x hm))]

/-- Two record types referencing each other by name. -/
def mutualDefs (nA nB : JStr) : List (JStr × PropDef) :=
  [(nA, refRTDef nB), (nB, refRTDef nA)]

/-- The library their construction produces. -/
def mutualLib (dm : Bool) (nA nB : JStr) : Library :=
  ⟨[(nA, refRTDesc dm nA nB), (nB, refRTDesc dm nB nA)]⟩

/-- C5: two record types with mutual forward references build together
successfully in one `buildLibrary` call — both reference targets are
record types of the completed library, so both completion-time
resolution checks pass — while a reference whose target is not a record
type of the completed library makes `buildLibrary` fail with the
invalid-definition error. -/
theorem forward_reference_resolution (f : Nat) (dm : Bool) (nA nB nT : JStr)
    (hA : IsIdent nA) (hB : IsIdent nB) (hT : IsIdent nT)
    (hhA : '#' ∉ nA) (hhB : '#' ∉ nB)
    (hAB : nA ≠ nB) (hTA : nT ≠ nA) :
    buildLibrary (f + 1 + 1 + 1 + 1) dm (mutualDefs nA nB) =
      Except.ok (mutualLib dm nA nB) ∧
    hasRecordType (mutualLib dm nA nB) nA = true ∧
    hasRecordType (mutualLib dm nA nB) nB = true ∧
    buildLibrary (f + 1 + 1 + 1 + 1) dm [(nA, refRTDef nT)] =
      Except.error BuildErr.invalidDef := by
  have hiA := jsIndexOf_eq_none hhA
  have hiB := jsIndexOf_eq_none hhB
  refine ⟨?_, ?_, ?_, ?_⟩
  · simp only [buildLibrary, mutualDefs, addRecordTypesGo, addRecordTypeStep,
      buildContainer_refRT f dm nA nB hB, buildContainer_refRT f dm nB nA hA,
      cdSet]
    simp only [if_neg hAB]
    simp [runRefChecks, hasRecordType, cdLookup, hAB, validateLibraryTypes,
      validateProps, propAttrsOk, refRTDesc, ContainerDesc.recordTypeName,
      ContainerDesc.idPropName, ContainerDesc.props, hiA, hiB, idNumDesc,
      refPropDesc, PropDesc.isId, PropDesc.isScalar, PropDesc.svt,
      PropDesc.opt, PropDesc.modif, PropDesc.viewBase, PropDesc.nested,
      mutualLib]
  · simp [mutualLib, hasRecordType, cdLookup]
  · simp [mutualLib, hasRecordType, cdLookup, hAB]
  · simp only [buildLibrary, addRecordTypesGo, addRecordTypeStep,
      buildContainer_refRT f dm nA nT hT, cdSet]
    simp [runRefChecks, hasRecordType, cdLookup, Ne.symm hTA]

theorem buildProperty_fields {fuel : Nat} {dm : Bool} {rt path n : JStr}
    {d : PropDef} {vb : Option PropDesc} {p : PropDesc} {ks : List RefCheck}
    (h : buildProperty fuel dm rt path n d vb = Except.ok (p, ks)) :
    p.name = n ∧ p.defn = d ∧ p.viewBase = vb := by
  cases fuel with
  | zero => exact absurd h (by simp [buildProperty])
  | succ fuel =>
    simp only [buildProperty] at h
    split at h
    · exact absurd h (by simp)
    split at h
    · exact absurd h (by simp)
    split at h
    · split at h
      · exact absurd h (by simp)
      split at h
      · exact absurd h (by simp)
      simp only [Except.ok.injEq, Prod.mk.injEq] at h
      obtain ⟨hp, -⟩ := h
      subst hp
      exact ⟨rfl, rfl, rfl⟩
    · split at h
      · simp only [Except.ok.injEq, Prod.mk.injEq] at h
        obtain ⟨hp, -⟩ := h
        subst hp
        exact ⟨rfl, rfl, rfl⟩
      split at h
      · exact absurd h (by simp)
      split at h
      · exact absurd h (by simp)
      simp only [Except.ok.injEq, Prod.mk.injEq] at h
      obtain ⟨hp, -⟩ := h
      subst hp
      exact ⟨rfl, rfl, rfl⟩
    · simp only [Except.ok.injEq, Prod.mk.injEq] at h
      obtain ⟨hp, -⟩ := h
      subst hp
      exact ⟨rfl, rfl, rfl⟩

/-- A container definition holding exactly the given properties. -/
def cdefOf (l : List (JStr × PropDef)) : PropDef :=
  PropDef.mk none none none none none (some l) false

theorem forward_reference_resolution_witness :
    buildLibrary 5 true (mutualDefs "A".data "B".data) =
      Except.ok (mutualLib true "A".data "B".data) ∧
    hasRecordType (mutualLib true "A".data "B".data) "A".data = true ∧
    hasRecordType (mutualLib true "A".data "B".data) "B".data = true ∧
    buildLibrary 5 true [("A".data, refRTDef "C".data)] =
      Except.error BuildErr.invalidDef :=
  forward_reference_resolution 1 true "A".data "B".data "C".data
    (by decide) (by decide) (by decide) (by decide) (by decide)
    (by decide) (by decide)

/-- C6: view properties.  For a container whose property `b` declares
`viewOf: a`: (1) if `a` does not exist in the container, construction
fails with the invalid-definition error; (2) if the base is itself a
view (`a` is `viewOf: c`), construction fails with the
invalid-definition error; (3) if `b`'s definition carries a
`properties` or `subtypes` attribute, construction fails with the
invalid-definition error; (4) otherwise `b` gets its own descriptor,
distinct from `a`'s, whose `viewOfDesc` is `a`'s descriptor and whose
effective definition takes each attribute from `b`'s definition when
explicitly overridden there and from `a`'s definition otherwise, with
the nested shape always `a`'s. -/
theorem view_property_semantics (f : Nat) (dm : Bool) (rt path a b c : JStr)
    (da db dbo dc dav mav m : PropDef)
    (pa pc pav pb : PropDesc) (ka kc kav kb : List RefCheck)
    (hab : a ≠ b) (hca : c ≠ a)
    (hdaV : da.viewOf = none) (hdbV : db.viewOf = some a)
    (hdcV : dc.viewOf = none) (hdavV : dav.viewOf = some c)
    (hdboV : dbo.viewOf = some a)
    (hover : dbo.properties.isSome = true ∨ dbo.hasSubtypes = true)
    (hpa : buildProperty (f + 1) dm rt path a da none = Except.ok (pa, ka))
    (hm : mergeViewDef pa.defn db = Except.ok m)
    (hpb : buildProperty (f + 1) dm rt path b m (some pa) =
      Except.ok (pb, kb))
    (hpaId : pa.isId = false) (hpbId : pb.isId = false)
    (hpc : buildProperty (f + 1 + 1) dm rt path c dc none =
      Except.ok (pc, kc))
    (hmav : mergeViewDef pc.defn dav = Except.ok mav)
    (hpav : buildProperty (f + 1 + 1) dm rt path a mav (some pc) =
      Except.ok (pav, kav)) :
    buildContainer (f + 1 + 1) dm rt path (cdefOf [(b, db)]) =
      Except.error BuildErr.invalidDef ∧
    buildContainer (f + 1 + 1 + 1 + 1) dm rt path
        (cdefOf [(c, dc), (a, dav), (b, db)]) =
      Except.error BuildErr.invalidDef ∧
    buildContainer (f + 1 + 1 + 1) dm rt path (cdefOf [(a, da), (b, dbo)]) =
      Except.error BuildErr.invalidDef ∧
    (buildContainer (f + 1 + 1 + 1) dm rt path (cdefOf [(a, da), (b, db)]) =
      Except.ok
        (ContainerDesc.mk rt path [a, b] [(a, pa), (b, pb)] none,
         ka ++ kb) ∧
     pb.viewBase = some pa ∧
     pb ≠ pa ∧
     pb.defn = PropDef.mk (db.valueType <|> da.valueType)
       (db.role <|> da.role) (db.optionalAttr <|> da.optionalAttr)
       (db.modifiableAttr <|> da.modifiableAttr) (db.viewOf <|> da.viewOf)
       da.properties da.hasSubtypes) := by
  obtain ⟨hpaN, hpaD, hpaV⟩ := buildProperty_fields hpa
  obtain ⟨hpbN, hpbD, hpbV⟩ := buildProperty_fields hpb
  obtain ⟨hpcN, hpcD, hpcV⟩ := buildProperty_fields hpc
  obtain ⟨hpavN, hpavD, hpavV⟩ := buildProperty_fields hpav
  have hmEq : m = PropDef.mk (db.valueType <|> da.valueType)
      (db.role <|> da.role) (db.optionalAttr <|> da.optionalAttr)
      (db.modifiableAttr <|> da.modifiableAttr) (db.viewOf <|> da.viewOf)
      da.properties da.hasSubtypes := by
    simp only [mergeViewDef, hpaD] at hm
    split at hm
    · exact absurd hm (by simp)
    · simp only [Except.ok.injEq] at hm
      exact hm.symm
  refine ⟨?_, ?_, ?_, ?_, ?_, ?_, ?_⟩
  · simp [buildContainer, cdefOf, PropDef.hasSubtypes, PropDef.properties,
      addPlain, hdbV, addViews, pdLookup]
  · have hAV2 : addViews (f + 1 + 1 + 1) dm rt path [(a, dav), (b, db)]
        [(c, pc)] kc = Except.error BuildErr.invalidDef := by
      simp only [addViews]
      rw [hdavV]
      simp [pdLookup, hpcV, hmav, hpav]
      rw [hdbV]
      simp [pdLookup, hca, hpavV]
    simp only [buildContainer, cdefOf, PropDef.hasSubtypes,
      PropDef.properties, Option.getD, addPlain, hdcV, Option.isSome, hpc,
      hdavV, hdbV, List.nil_append]
    simp [hAV2]
  · have hmerge : mergeViewDef pa.defn dbo =
        Except.error BuildErr.invalidDef := by
      rcases hover with h1 | h1 <;> simp [mergeViewDef, h1]
    have hAV3 : addViews (f + 1 + 1) dm rt path [(b, dbo)] [(a, pa)] ka =
        Except.error BuildErr.invalidDef := by
      simp [addViews, hdboV, pdLookup, hpaV, hmerge]
    simp only [buildContainer, cdefOf, PropDef.hasSubtypes,
      PropDef.properties, Option.getD, addPlain, hdaV, Option.isSome, hpa,
      hdboV, List.nil_append]
    simp [hAV3]
  · have hAV : addViews (f + 1 + 1) dm rt path [(b, db)] [(a, pa)] ka =
        Except.ok ([(a, pa), (b, pb)], ka ++ kb) := by
      simp [addViews, hdbV, pdLookup, hpaV, hm, hpb]
    have hID : findIdProp [(a, pa), (b, pb)] [a, b] none =
        Except.ok none := by
      simp [findIdProp, pdLookup, hab, hpaId, hpbId]
    simp only [buildContainer, cdefOf, PropDef.hasSubtypes,
      PropDef.properties, Option.getD, addPlain, hdaV, Option.isSome, hpa,
      hdbV, List.nil_append]
    simp [hAV, hID]
  · exact hpbV
  · intro heq
    exact hab (hpaN ▸ hpbN ▸ congrArg PropDesc.name heq.symm)
  · rw [hpbD, hmEq]


def vwDefA : PropDef :=
  PropDef.mk (some "string".data) none none none none none false

def vwDefB : PropDef :=
  PropDef.mk none none (some true) none (some "a".data) none false

def vwDefBo : PropDef :=
  PropDef.mk none none none none (some "a".data) (some []) false

def vwDefAv : PropDef :=
  PropDef.mk none none none none (some "c".data) none false

def vwM : PropDef :=
  PropDef.mk (some "string".data) none (some true) none (some "a".data)
    none false

def vwMav : PropDef :=
  PropDef.mk (some "string".data) none none none (some "c".data) none false

def vwPa : PropDesc :=
  PropDesc.mk "a".data vwDefA ScalarType.string none false false true
    false false true none none

def vwPc : PropDesc :=
  PropDesc.mk "c".data vwDefA ScalarType.string none false false true
    false false true none none

def vwPav : PropDesc :=
  PropDesc.mk "a".data vwMav ScalarType.string none false false true
    false false false (some vwPc) none

def vwPb : PropDesc :=
  PropDesc.mk "b".data vwM ScalarType.string none false false true
    false true false (some vwPa) none

theorem view_property_semantics_witness :
    buildContainer 2 true "R".data [] (cdefOf [("b".data, vwDefB)]) =
      Except.error BuildErr.invalidDef ∧
    buildContainer 4 true "R".data []
        (cdefOf [("c".data, vwDefA), ("a".data, vwDefAv),
          ("b".data, vwDefB)]) =
      Except.error BuildErr.invalidDef ∧
    buildContainer 3 true "R".data []
        (cdefOf [("a".data, vwDefA), ("b".data, vwDefBo)]) =
      Except.error BuildErr.invalidDef ∧
    (buildContainer 3 true "R".data []
        (cdefOf [("a".data, vwDefA), ("b".data, vwDefB)]) =
      Except.ok
        (ContainerDesc.mk "R".data [] ["a".data, "b".data]
          [("a".data, vwPa), ("b".data, vwPb)] none, [] ++ []) ∧
     vwPb.viewBase = some vwPa ∧
     vwPb ≠ vwPa ∧
     vwPb.defn = PropDef.mk (vwDefB.valueType <|> vwDefA.valueType)
       (vwDefB.role <|> vwDefA.role)
       (vwDefB.optionalAttr <|> vwDefA.optionalAttr)
       (vwDefB.modifiableAttr <|> vwDefA.modifiableAttr)
       (vwDefB.viewOf <|> vwDefA.viewOf)
       vwDefA.properties vwDefA.hasSubtypes) :=
  view_property_semantics 0 true "R".data [] "a".data "b".data "c".data
    vwDefA vwDefB vwDefBo vwDefA vwDefAv vwMav vwM
    vwPa vwPc vwPav vwPb [] [] [] []
    (by decide) (by decide) rfl rfl rfl rfl rfl (Or.inl rfl)
    rfl rfl rfl rfl rfl rfl rfl rfl

end X2
